import Mathlib

/-!
Shallow embedding of src/shared-ptr.h: a reference-counted `shared_ptr` /
`weak_ptr` pair over a manually managed `ControlBlock` carrying a
`weak_ptr_cnt` and a `shared_ptr_cnt`.

Modelling choices.
* The heap of control-block allocations is a list `St.blocks`; the index of a
  block in that list plays the role of the `ControlBlock*` pointer value.
  A slot keeps ghost fields `deleterCalls` (how often `deleteObjectPtr` ran,
  i.e. how often the stored deleter was invoked) and `freeCalls` (how often
  `delete control_block_ptr` ran).  A freed control block is `cb = none`;
  accessing a freed block (a dangling-pointer dereference in C++) makes the
  step partial (`none`), as does using a handle whose storage is gone.
* Object pointers `T*` are `Option Nat` (indices into `St.objects`,
  `none` = `nullptr`).  `St.objects` stores the pointee values.
* The counters are C++ `size_t`.  They are modelled as `Nat`; `operator--`
  on a zero `size_t` (the only place where wrap-around could be observed in
  this program) is recorded in the ghost flag `St.underflow`, which every
  decrement sets when it fires on a zero counter.  The verification proves
  the flag never becomes true in a reachable state, so the truncated `Nat`
  decrement agrees with the `size_t` semantics on every reachable state.
* Live handle objects are slots in `St.shptrs` / `St.wptrs`; a slot becomes
  `none` when the handle's destructor runs.  Every mutating member function
  of `shared_ptr` / `weak_ptr` is one constructor of `Op`, and `step`
  executes it exactly as the source does, statement by statement.
-/

/-- Mirrors `struct ControlBlock` (src/shared-ptr.h:6-34): the two counters. -/
structure ControlBlock where
  weak_ptr_cnt : Nat
  shared_ptr_cnt : Nat
deriving DecidableEq, Repr

/-- Mirrors `ControlBlock::add_shared` (lines 13-16): `weak_ptr_cnt++; shared_ptr_cnt++;`. -/
def ControlBlock.add_shared (c : ControlBlock) : ControlBlock :=
  { weak_ptr_cnt := c.weak_ptr_cnt + 1, shared_ptr_cnt := c.shared_ptr_cnt + 1 }

/-- Mirrors `ControlBlock::remove_shared` (lines 18-21): `weak_ptr_cnt--; shared_ptr_cnt--;`.
The caller records underflow of the `size_t` decrements in `St.underflow`. -/
def ControlBlock.remove_shared (c : ControlBlock) : ControlBlock :=
  { weak_ptr_cnt := c.weak_ptr_cnt - 1, shared_ptr_cnt := c.shared_ptr_cnt - 1 }

/-- Mirrors `ControlBlock::add_weak` (lines 23-25). -/
def ControlBlock.add_weak (c : ControlBlock) : ControlBlock :=
  { weak_ptr_cnt := c.weak_ptr_cnt + 1, shared_ptr_cnt := c.shared_ptr_cnt }

/-- Mirrors `ControlBlock::remove_weak` (lines 27-29). -/
def ControlBlock.remove_weak (c : ControlBlock) : ControlBlock :=
  { weak_ptr_cnt := c.weak_ptr_cnt - 1, shared_ptr_cnt := c.shared_ptr_cnt }

/-- One heap allocation of a `ControlBlockWithPointer` (lines 36-47).
`cb = some c` while the control block is allocated with counters `c`;
`cb = none` after `delete control_block_ptr`.  `object_ptr` is the stored
raw pointer field (nulled by `deleteObjectPtr`).  `deleterCalls` and
`freeCalls` are ghost instrumentation counting deleter invocations and
control-block deallocations. -/
structure Block where
  cb : Option ControlBlock
  object_ptr : Option Nat
  deleterCalls : Nat
  freeCalls : Nat
deriving DecidableEq, Repr

/-- Mirrors `ControlBlockWithPointer::deleteObjectPtr` (lines 43-46):
`deleter(object_ptr); object_ptr = nullptr;`.  The deleter invocation is
recorded in the ghost counter. -/
def Block.deleteObjectPtr (blk : Block) : Block :=
  { blk with object_ptr := none, deleterCalls := blk.deleterCalls + 1 }

/-- The data members of `shared_ptr` (lines 200-202): the cached object
pointer and the control-block pointer. -/
structure shared_ptr where
  object_ptr : Option Nat
  control_block_ptr : Option Nat
deriving DecidableEq, Repr

/-- The data members of `weak_ptr` (lines 282-284). -/
structure weak_ptr where
  control_block_ptr : Option Nat
  object_ptr : Option Nat
deriving DecidableEq, Repr

/-- Program state: pointee heap, control-block heap, the live `shared_ptr`
and `weak_ptr` objects (slot `none` = handle already destructed), and the
ghost `size_t`-underflow flag. -/
structure St where
  objects : List Int
  blocks : List Block
  shptrs : List (Option shared_ptr)
  wptrs : List (Option weak_ptr)
  underflow : Bool
deriving DecidableEq, Repr

/-- What `~shared_ptr` (lines 186-198) leaves in the handle's fields: both
nulled if `control_block_ptr` was non-null, untouched otherwise (the
clearing statements are inside `if (control_block_ptr)`). -/
def dtorFields (h : shared_ptr) : shared_ptr :=
  if h.control_block_ptr.isSome then { object_ptr := none, control_block_ptr := none } else h

/-- What `~weak_ptr` (lines 271-280) leaves in the handle's fields. -/
def wdtorFields (w : weak_ptr) : weak_ptr :=
  if w.control_block_ptr.isSome then { control_block_ptr := none, object_ptr := none } else w

/-- The heap effect of `~shared_ptr` (lines 186-198) run on a handle with
fields `h`: `remove_shared()`, then `deleteObjectPtr()` if the shared count
hit 0, then `delete control_block_ptr` if the weak count hit 0.  Returns the
updated block heap and whether a `size_t` decrement underflowed.  `none`
when the handle's control-block pointer dangles (undefined behavior). -/
def sptrDtorBlocks (blocks : List Block) (h : shared_ptr) : Option (List Block × Bool) :=
  match h.control_block_ptr with
  | none => some (blocks, false)
  | some b =>
    match blocks[b]? with
    | none => none
    | some blk =>
      match blk.cb with
      | none => none
      | some c =>
        let uf := decide (c.shared_ptr_cnt = 0 ∨ c.weak_ptr_cnt = 0)
        let c1 := c.remove_shared
        let blk1 := { blk with cb := some c1 }
        let blk2 := if c1.shared_ptr_cnt = 0 then blk1.deleteObjectPtr else blk1
        let blk3 := if c1.weak_ptr_cnt = 0 then
            { blk2 with cb := none, freeCalls := blk2.freeCalls + 1 } else blk2
        some (blocks.set b blk3, uf)

/-- The heap effect of `~weak_ptr` (lines 271-280): `remove_weak()`, then
`delete control_block_ptr` if the weak count hit 0. -/
def wptrDtorBlocks (blocks : List Block) (w : weak_ptr) : Option (List Block × Bool) :=
  match w.control_block_ptr with
  | none => some (blocks, false)
  | some b =>
    match blocks[b]? with
    | none => none
    | some blk =>
      match blk.cb with
      | none => none
      | some c =>
        let uf := decide (c.weak_ptr_cnt = 0)
        let c1 := c.remove_weak
        let blk1 := if c1.weak_ptr_cnt = 0 then
            { blk with cb := none, freeCalls := blk.freeCalls + 1 } else { blk with cb := some c1 }
        some (blocks.set b blk1, uf)

/-- `control_block_ptr->add_shared()` on block `b`; `none` on a dangling or
freed block. -/
def addSharedBlocks (blocks : List Block) (b : Nat) : Option (List Block) :=
  match blocks[b]? with
  | none => none
  | some blk =>
    match blk.cb with
    | none => none
    | some c => some (blocks.set b { blk with cb := some c.add_shared })

/-- `control_block_ptr->add_weak()` on block `b`. -/
def addWeakBlocks (blocks : List Block) (b : Nat) : Option (List Block) :=
  match blocks[b]? with
  | none => none
  | some blk =>
    match blk.cb with
    | none => none
    | some c => some (blocks.set b { blk with cb := some c.add_weak })

/-- A freshly allocated `ControlBlockWithPointer{ptr, deleter}` (line 41):
both counters start at 1, the raw pointer is stored, no deleter or free has
run yet. -/
def newBlock (p : Option Nat) : Block :=
  { cb := some { weak_ptr_cnt := 1, shared_ptr_cnt := 1 }, object_ptr := p,
    deleterCalls := 0, freeCalls := 0 }

/-- The mutating API surface: one constructor per member function of
`shared_ptr` / `weak_ptr` that changes state.  Handle arguments are slot
indices into `St.shptrs` (for `shared_ptr` objects) or `St.wptrs` (for
`weak_ptr` objects). -/
inductive Op where
  /-- `new int(v)`: allocate a pointee. -/
  | newObj (v : Int)
  /-- `shared_ptr(V* ptr_, Deleter)` (lines 89-92) on pointer value `p`. -/
  | fromRaw (p : Option Nat)
  /-- `shared_ptr()` / `shared_ptr(nullptr)` (lines 85-87). -/
  | fromNull
  /-- copy constructor (lines 101-105) from the handle in slot `i`. -/
  | copy (i : Nat)
  /-- aliasing constructor (lines 94-99) from slot `i` with pointer `p`. -/
  | aliasOf (i : Nat) (p : Option Nat)
  /-- move constructor (lines 114-119) from slot `i`. -/
  | moveCtor (i : Nat)
  /-- copy assignment (lines 121-132): slot `i` `=` slot `j`. -/
  | assign (i j : Nat)
  /-- move assignment (lines 134-142): slot `i` `=` `std::move(`slot `j)`. -/
  | assignMove (i j : Nat)
  /-- `~shared_ptr` (lines 186-198) on slot `i` (the slot dies). -/
  | destroy (i : Nat)
  /-- `reset()` (lines 175-177) on slot `i`. -/
  | reset (i : Nat)
  /-- `reset(new_ptr, deleter)` (lines 179-184) on slot `i`, allocation
  succeeding. -/
  | resetPtr (i : Nat) (p : Option Nat)
  /-- `reset(new_ptr, deleter)` on slot `i` where
  `new ControlBlockWithPointer` throws: `reset()` and `object_ptr = new_ptr`
  have executed, line 183 has not. -/
  | resetPtrFail (i : Nat) (p : Option Nat)
  /-- `weak_ptr(const shared_ptr&)` (lines 210-215) from shared slot `i`. -/
  | wfromShared (i : Nat)
  /-- `weak_ptr(const weak_ptr&)` (lines 217-221) from weak slot `i`. -/
  | wcopy (i : Nat)
  /-- weak copy assignment (lines 223-234): weak slot `i` `=` weak slot `j`. -/
  | wassignW (i j : Nat)
  /-- weak move assignment (lines 236-244). -/
  | wassignMove (i j : Nat)
  /-- `weak_ptr::operator=(const shared_ptr&)` (lines 246-257): weak slot
  `i` `=` shared slot `j`. -/
  | wassignS (i j : Nat)
  /-- `~weak_ptr` (lines 271-280) on weak slot `i`. -/
  | wdestroy (i : Nat)
  /-- `weak_ptr::lock()` (lines 259-269) on weak slot `i`; the returned
  `shared_ptr` becomes a fresh slot. -/
  | lock (i : Nat)
deriving DecidableEq, Repr

/-- One API call, executed exactly as the source member function.  `none`
models undefined behavior (dead handle slot, dangling control-block
pointer): no claim is made about such calls. -/
def step (s : St) (op : Op) : Option St :=
  match op with
  | .newObj v => some { s with objects := s.objects ++ [v] }
  | .fromRaw p =>
      some { s with
        blocks := s.blocks ++ [newBlock p],
        shptrs := s.shptrs ++
          [some { object_ptr := p, control_block_ptr := some s.blocks.length }] }
  | .fromNull =>
      some { s with shptrs := s.shptrs ++
        [some { object_ptr := none, control_block_ptr := none }] }
  | .copy i =>
      match s.shptrs[i]? with
      | some (some h) =>
        match h.control_block_ptr with
        | none => some { s with shptrs := s.shptrs ++ [some h] }
        | some b =>
          match addSharedBlocks s.blocks b with
          | some blocks1 => some { s with blocks := blocks1, shptrs := s.shptrs ++ [some h] }
          | none => none
      | _ => none
  | .aliasOf i p =>
      match s.shptrs[i]? with
      | some (some h) =>
        match h.control_block_ptr with
        | none => some { s with shptrs := s.shptrs ++
            [some { object_ptr := p, control_block_ptr := none }] }
        | some b =>
          match addSharedBlocks s.blocks b with
          | some blocks1 => some { s with blocks := blocks1, shptrs := s.shptrs ++
              [some { object_ptr := p, control_block_ptr := some b }] }
          | none => none
      | _ => none
  | .moveCtor i =>
      match s.shptrs[i]? with
      | some (some h) =>
          some { s with shptrs :=
            (s.shptrs.set i (some { object_ptr := none, control_block_ptr := none })) ++ [some h] }
      | _ => none
  | .assign i j =>
      if i = j then some s else
      match s.shptrs[i]?, s.shptrs[j]? with
      | some (some hd), some (some hs) =>
        match sptrDtorBlocks s.blocks hd with
        | some (blocks1, uf) =>
          match hs.control_block_ptr with
          | none => some { s with
              blocks := blocks1,
              shptrs := s.shptrs.set i (some hs), underflow := s.underflow || uf }
          | some b =>
            match addSharedBlocks blocks1 b with
            | some blocks2 => some { s with
              blocks := blocks2,
                shptrs := s.shptrs.set i (some hs), underflow := s.underflow || uf }
            | none => none
        | none => none
      | _, _ => none
  | .assignMove i j =>
      if i = j then some s else
      match s.shptrs[i]?, s.shptrs[j]? with
      | some (some hd), some (some hs) =>
        match sptrDtorBlocks s.blocks hd with
        | some (blocks1, uf) =>
            some { s with
              blocks := blocks1,
              shptrs := (s.shptrs.set i (some hs)).set j (some (dtorFields hd)),
              underflow := s.underflow || uf }
        | none => none
      | _, _ => none
  | .destroy i =>
      match s.shptrs[i]? with
      | some (some h) =>
        match sptrDtorBlocks s.blocks h with
        | some (blocks1, uf) => some { s with
            blocks := blocks1,
            shptrs := s.shptrs.set i none, underflow := s.underflow || uf }
        | none => none
      | _ => none
  | .reset i =>
      match s.shptrs[i]? with
      | some (some h) =>
        match sptrDtorBlocks s.blocks h with
        | some (blocks1, uf) => some { s with
            blocks := blocks1,
            shptrs := s.shptrs.set i (some (dtorFields h)), underflow := s.underflow || uf }
        | none => none
      | _ => none
  | .resetPtr i p =>
      match s.shptrs[i]? with
      | some (some h) =>
        match sptrDtorBlocks s.blocks h with
        | some (blocks1, uf) => some { s with
            blocks := blocks1 ++ [newBlock p],
            shptrs := s.shptrs.set i
              (some { object_ptr := p, control_block_ptr := some blocks1.length }),
            underflow := s.underflow || uf }
        | none => none
      | _ => none
  | .resetPtrFail i p =>
      match s.shptrs[i]? with
      | some (some h) =>
        match sptrDtorBlocks s.blocks h with
        | some (blocks1, uf) => some { s with
            blocks := blocks1,
            shptrs := s.shptrs.set i (some { object_ptr := p, control_block_ptr := none }),
            underflow := s.underflow || uf }
        | none => none
      | _ => none
  | .wfromShared i =>
      match s.shptrs[i]? with
      | some (some h) =>
        match h.control_block_ptr with
        | none => some { s with wptrs := s.wptrs ++
            [some { control_block_ptr := none, object_ptr := h.object_ptr }] }
        | some b =>
          match addWeakBlocks s.blocks b with
          | some blocks1 => some { s with blocks := blocks1, wptrs := s.wptrs ++
              [some { control_block_ptr := some b, object_ptr := h.object_ptr }] }
          | none => none
      | _ => none
  | .wcopy i =>
      match s.wptrs[i]? with
      | some (some w) =>
        match w.control_block_ptr with
        | none => some { s with wptrs := s.wptrs ++ [some w] }
        | some b =>
          match addWeakBlocks s.blocks b with
          | some blocks1 => some { s with blocks := blocks1, wptrs := s.wptrs ++ [some w] }
          | none => none
      | _ => none
  | .wassignW i j =>
      match s.wptrs[i]?, s.wptrs[j]? with
      | some (some wd), some (some ws) =>
        if wd.control_block_ptr = ws.control_block_ptr then some s else
        match wptrDtorBlocks s.blocks wd with
        | some (blocks1, uf) =>
          match ws.control_block_ptr with
          | none => some { s with
              blocks := blocks1,
              wptrs := s.wptrs.set i (some ws), underflow := s.underflow || uf }
          | some b =>
            match addWeakBlocks blocks1 b with
            | some blocks2 => some { s with
                blocks := blocks2,
                wptrs := s.wptrs.set i (some ws), underflow := s.underflow || uf }
            | none => none
        | none => none
      | _, _ => none
  | .wassignMove i j =>
      match s.wptrs[i]?, s.wptrs[j]? with
      | some (some wd), some (some ws) =>
        if wd.control_block_ptr = ws.control_block_ptr then some s else
        match wptrDtorBlocks s.blocks wd with
        | some (blocks1, uf) =>
            some { s with
              blocks := blocks1,
              wptrs := (s.wptrs.set i (some ws)).set j (some (wdtorFields wd)),
              underflow := s.underflow || uf }
        | none => none
      | _, _ => none
  | .wassignS i j =>
      match s.wptrs[i]?, s.shptrs[j]? with
      | some (some wd), some (some hs) =>
        if wd.control_block_ptr = hs.control_block_ptr then some s else
        match wptrDtorBlocks s.blocks wd with
        | some (blocks1, uf) =>
          match hs.control_block_ptr with
          | none => some { s with
              blocks := blocks1,
              wptrs := s.wptrs.set i
                (some { control_block_ptr := none, object_ptr := hs.object_ptr }),
              underflow := s.underflow || uf }
          | some b =>
            match addWeakBlocks blocks1 b with
            | some blocks2 => some { s with
                blocks := blocks2,
                wptrs := s.wptrs.set i
                  (some { control_block_ptr := some b, object_ptr := hs.object_ptr }),
                underflow := s.underflow || uf }
            | none => none
        | none => none
      | _, _ => none
  | .wdestroy i =>
      match s.wptrs[i]? with
      | some (some w) =>
        match wptrDtorBlocks s.blocks w with
        | some (blocks1, uf) => some { s with
            blocks := blocks1,
            wptrs := s.wptrs.set i none, underflow := s.underflow || uf }
        | none => none
      | _ => none
  | .lock i =>
      match s.wptrs[i]? with
      | some (some w) =>
        match w.control_block_ptr with
        | none => some { s with shptrs := s.shptrs ++
            [some { object_ptr := none, control_block_ptr := none }] }
        | some b =>
          match s.blocks[b]? with
          | none => none
          | some blk =>
            match blk.cb with
            | none => none
            | some c =>
              if c.shared_ptr_cnt = 0 then
                some { s with shptrs := s.shptrs ++
                  [some { object_ptr := none, control_block_ptr := none }] }
              else
                match addSharedBlocks s.blocks b with
                | some blocks1 => some { s with blocks := blocks1, shptrs := s.shptrs ++
                    [some { object_ptr := w.object_ptr, control_block_ptr := some b }] }
                | none => none
      | _ => none

/-- The empty initial state: no objects, no blocks, no handles. -/
def init : St :=
  { objects := [], blocks := [], shptrs := [], wptrs := [], underflow := false }

/-- Execute a sequence of API calls from a state. -/
def runFrom (s : St) : List Op → Option St
  | [] => some s
  | op :: rest =>
    match step s op with
    | some s1 => runFrom s1 rest
    | none => none

/-- Execute a sequence of API calls from the empty initial state. -/
def run (ops : List Op) : Option St :=
  runFrom init ops

/-- Mirrors `shared_ptr::use_count` (lines 168-173): 0 without a control
block, otherwise the block's `shared_ptr_cnt` (reading a freed block is
undefined behavior in C++; the model returns 0 there, and the invariant
shows a live handle never reaches that case). -/
def use_count (s : St) (h : shared_ptr) : Nat :=
  match h.control_block_ptr with
  | none => 0
  | some b =>
    match s.blocks[b]? with
    | some blk =>
      match blk.cb with
      | some c => c.shared_ptr_cnt
      | none => 0
    | none => 0

/-- Mirrors `shared_ptr::get` (lines 144-146). -/
def shared_ptr.get (h : shared_ptr) : Option Nat :=
  h.object_ptr

/-- Mirrors `shared_ptr::operator bool` (lines 156-158). -/
def opBool (h : shared_ptr) : Bool :=
  h.object_ptr.isSome

/-- Mirrors `shared_ptr::operator==` (lines 152-154): compares the two
`control_block_ptr` fields only. -/
def opEq (a rhs : shared_ptr) : Bool :=
  rhs.control_block_ptr == a.control_block_ptr

/-- Mirrors `shared_ptr::operator*` (lines 160-162): the value behind the
cached object pointer. -/
def deref (s : St) (h : shared_ptr) : Option Int :=
  match h.object_ptr with
  | some p => s.objects[p]?
  | none => none

/-! ## Ghost counting: how many live handles reference each block -/

/-- Whether a `shared_ptr` slot holds a live handle whose control-block
pointer is block `b`. -/
def onB (b : Nat) : Option shared_ptr → Bool
  | some h => h.control_block_ptr == some b
  | none => false

/-- Whether a `weak_ptr` slot holds a live handle on block `b`. -/
def onW (b : Nat) : Option weak_ptr → Bool
  | some w => w.control_block_ptr == some b
  | none => false

/-- Number of live `shared_ptr` handles whose control-block pointer is `b`. -/
def countS (sh : List (Option shared_ptr)) (b : Nat) : Nat :=
  sh.countP (onB b)

/-- Number of live `weak_ptr` handles whose control-block pointer is `b`. -/
def countW (wk : List (Option weak_ptr)) (b : Nat) : Nat :=
  wk.countP (onW b)

theorem countP_set_add {α : Type} (l : List α) (i : Nat) (y x : α) (p : α → Bool)
    (h : l[i]? = some y) :
    (l.set i x).countP p + (if p y then 1 else 0) = l.countP p + (if p x then 1 else 0) := by
  induction l generalizing i with
  | nil => simp at h
  | cons a t ih =>
    cases i with
    | zero =>
      simp at h
      subst h
      simp [List.countP_cons]
      omega
    | succ n =>
      simp only [List.getElem?_cons_succ] at h
      simp only [List.set_cons_succ, List.countP_cons]
      have := ih n h
      omega

theorem countS_append (sh : List (Option shared_ptr)) (x : Option shared_ptr) (b : Nat) :
    countS (sh ++ [x]) b = countS sh b + (if onB b x then 1 else 0) := by
  simp [countS, List.countP_append, List.countP_cons]

theorem countW_append (wk : List (Option weak_ptr)) (x : Option weak_ptr) (b : Nat) :
    countW (wk ++ [x]) b = countW wk b + (if onW b x then 1 else 0) := by
  simp [countW, List.countP_append, List.countP_cons]

theorem countS_set (sh : List (Option shared_ptr)) (i : Nat) (y x : Option shared_ptr) (b : Nat)
    (h : sh[i]? = some y) :
    countS (sh.set i x) b + (if onB b y then 1 else 0)
      = countS sh b + (if onB b x then 1 else 0) :=
  countP_set_add sh i y x (onB b) h

theorem countW_set (wk : List (Option weak_ptr)) (i : Nat) (y x : Option weak_ptr) (b : Nat)
    (h : wk[i]? = some y) :
    countW (wk.set i x) b + (if onW b y then 1 else 0)
      = countW wk b + (if onW b x then 1 else 0) :=
  countP_set_add wk i y x (onW b) h

theorem countS_pos_of_live (sh : List (Option shared_ptr)) (i b : Nat) (h : shared_ptr)
    (hget : sh[i]? = some (some h)) (hcb : h.control_block_ptr = some b) :
    0 < countS sh b := by
  refine List.countP_pos_iff.mpr ⟨some h, List.getElem?_mem hget, ?_⟩
  simp [onB, hcb]

theorem countW_pos_of_live (wk : List (Option weak_ptr)) (i b : Nat) (w : weak_ptr)
    (hget : wk[i]? = some (some w)) (hcb : w.control_block_ptr = some b) :
    0 < countW wk b := by
  refine List.countP_pos_iff.mpr ⟨some w, List.getElem?_mem hget, ?_⟩
  simp [onW, hcb]

/-! ## The reachable-state invariant -/

/-- Per-block invariant.  While the control block is allocated its
`shared_ptr_cnt` equals the number of live `shared_ptr` handles on it, its
`weak_ptr_cnt` equals live shared plus live weak handles (each shared
handle holds one implicit weak reference), at least one handle references
it, the deleter has run exactly once iff no shared handle is left, and the
block has never been freed.  Once freed, no handle references it, and both
the deleter and `delete` have run exactly once. -/
def BlockInv (sh : List (Option shared_ptr)) (wk : List (Option weak_ptr))
    (b : Nat) (blk : Block) : Prop :=
  match blk.cb with
  | some c =>
      c.shared_ptr_cnt = countS sh b ∧
      c.weak_ptr_cnt = countS sh b + countW wk b ∧
      0 < countS sh b + countW wk b ∧
      blk.deleterCalls = (if countS sh b = 0 then 1 else 0) ∧
      blk.freeCalls = 0
  | none =>
      countS sh b = 0 ∧ countW wk b = 0 ∧ blk.deleterCalls = 1 ∧ blk.freeCalls = 1

/-- Heap invariant: every allocated slot satisfies `BlockInv`, and no
handle points beyond the allocated range. -/
def BlocksInv (blocks : List Block) (sh : List (Option shared_ptr))
    (wk : List (Option weak_ptr)) : Prop :=
  (∀ b blk, blocks[b]? = some blk → BlockInv sh wk b blk) ∧
  (∀ b, blocks.length ≤ b → countS sh b = 0 ∧ countW wk b = 0)

/-- Full state invariant: no `size_t` decrement has underflowed, and the
heap invariant holds. -/
def StInv (s : St) : Prop :=
  s.underflow = false ∧ BlocksInv s.blocks s.shptrs s.wptrs

theorem blockInv_congr {sh sh' : List (Option shared_ptr)} {wk wk' : List (Option weak_ptr)}
    {b : Nat} {blk : Block}
    (hS : countS sh' b = countS sh b) (hW : countW wk' b = countW wk b)
    (h : BlockInv sh wk b blk) : BlockInv sh' wk' b blk := by
  cases hcb : blk.cb with
  | none => simp only [BlockInv, hcb] at h ⊢; rw [hS, hW]; exact h
  | some c => simp only [BlockInv, hcb] at h ⊢; rw [hS, hW]; exact h

theorem blocksInv_congr {blocks : List Block} {sh sh' : List (Option shared_ptr)}
    {wk wk' : List (Option weak_ptr)}
    (hInv : BlocksInv blocks sh wk)
    (hS : ∀ b, countS sh' b = countS sh b) (hW : ∀ b, countW wk' b = countW wk b) :
    BlocksInv blocks sh' wk' := by
  refine ⟨fun b blk hget => blockInv_congr (hS b) (hW b) (hInv.1 b blk hget), fun b hb => ?_⟩
  rw [hS b, hW b]
  exact hInv.2 b hb

theorem lt_length_of_pos {blocks : List Block} {sh : List (Option shared_ptr)}
    {wk : List (Option weak_ptr)} {b0 : Nat}
    (hInv : BlocksInv blocks sh wk) (hpos : 0 < countS sh b0 + countW wk b0) :
    b0 < blocks.length := by
  by_contra hc
  push_neg at hc
  have h0 := hInv.2 b0 hc
  omega

theorem cb_of_pos {sh : List (Option shared_ptr)} {wk : List (Option weak_ptr)}
    {b0 : Nat} {blk : Block}
    (hBI : BlockInv sh wk b0 blk) (hpos : 0 < countS sh b0 + countW wk b0) :
    ∃ c, blk.cb = some c ∧ c.shared_ptr_cnt = countS sh b0 ∧
      c.weak_ptr_cnt = countS sh b0 + countW wk b0 ∧
      blk.deleterCalls = (if countS sh b0 = 0 then 1 else 0) ∧ blk.freeCalls = 0 := by
  cases hcb : blk.cb with
  | none => simp only [BlockInv, hcb] at hBI; omega
  | some c =>
    simp only [BlockInv, hcb] at hBI
    exact ⟨c, rfl, hBI.1, hBI.2.1, hBI.2.2.2⟩

theorem getElem?_set_lt {α : Type} (l : List α) (i : Nat) (a : α) (h : i < l.length) :
    (l.set i a)[i]? = some a := by
  rw [List.getElem?_set_self]
  simp [h]

theorem sptrDtor_core {blocks : List Block} {sh sh' : List (Option shared_ptr)}
    {wk : List (Option weak_ptr)} {hd : shared_ptr}
    (hInv : BlocksInv blocks sh wk)
    (hcnt : ∀ b, countS sh b = countS sh' b + (if hd.control_block_ptr = some b then 1 else 0))
    (hlive : ∀ b, hd.control_block_ptr = some b → 0 < countS sh b) :
    ∃ blocks', sptrDtorBlocks blocks hd = some (blocks', false) ∧
      BlocksInv blocks' sh' wk ∧ blocks'.length = blocks.length ∧
      (∀ b, hd.control_block_ptr ≠ some b → blocks'[b]? = blocks[b]?) := by
  cases hcb : hd.control_block_ptr with
  | none =>
    refine ⟨blocks, by simp [sptrDtorBlocks, hcb], ?_, rfl, fun b _ => rfl⟩
    refine blocksInv_congr hInv (fun b => ?_) (fun b => rfl)
    have h1 := hcnt b
    simp only [hcb] at h1
    simp at h1
    omega
  | some b0 =>
    have hpos : 0 < countS sh b0 := hlive b0 hcb
    have hb0 : b0 < blocks.length := lt_length_of_pos hInv (by omega)
    have hgetblk : blocks[b0]? = some blocks[b0] := List.getElem?_eq_getElem hb0
    have hBI := hInv.1 b0 blocks[b0] hgetblk
    obtain ⟨c, hc, hshared, hweak, hdel, hfree⟩ := cb_of_pos hBI (by omega)
    have hb0cnt : countS sh b0 = countS sh' b0 + 1 := by
      have h1 := hcnt b0
      simp only [hcb] at h1
      simp at h1
      omega
    have hOther : ∀ b, b ≠ b0 → countS sh' b = countS sh b := by
      intro b hb
      have h1 := hcnt b
      simp only [hcb] at h1
      rw [if_neg (by simp [Ne.symm hb])] at h1
      omega
    have hufalse : (decide (c.shared_ptr_cnt = 0 ∨ c.weak_ptr_cnt = 0)) = false := by
      simp only [decide_eq_false_iff_not]
      omega
    have hclause1 : ∀ blk3 : Block,
        BlockInv sh' wk b0 blk3 →
        BlocksInv (blocks.set b0 blk3) sh' wk := by
      intro blk3 h3
      constructor
      · intro b blk' hget'
        by_cases hbb : b = b0
        · subst hbb
          rw [getElem?_set_lt blocks b blk3 hb0] at hget'
          cases hget'
          exact h3
        · rw [List.getElem?_set_ne (Ne.symm hbb)] at hget'
          exact blockInv_congr (hOther b hbb) rfl (hInv.1 b blk' hget')
      · intro b hb
        rw [List.length_set] at hb
        have hne : b ≠ b0 := by omega
        rw [hOther b hne]
        exact hInv.2 b hb
    have huntouched : ∀ blk3 : Block, ∀ b, (some b0 : Option Nat) ≠ some b →
        (blocks.set b0 blk3)[b]? = blocks[b]? := by
      intro blk3 b hb
      apply List.getElem?_set_ne
      intro hbe
      exact hb (by rw [hbe])
    rw [if_neg (by omega)] at hdel
    by_cases hS0 : countS sh' b0 = 0
    · by_cases hW0 : countW wk b0 = 0
      · -- last shared handle, no weak handles: destroy the object, free the block
        have hsz : c.shared_ptr_cnt - 1 = 0 := by omega
        have hwz : c.weak_ptr_cnt - 1 = 0 := by omega
        refine ⟨blocks.set b0
          { cb := none, object_ptr := none,
            deleterCalls := blocks[b0].deleterCalls + 1,
            freeCalls := blocks[b0].freeCalls + 1 }, ?_, ?_, by simp, huntouched _⟩
        · simp only [sptrDtorBlocks, hcb, hgetblk, hc, hufalse, ControlBlock.remove_shared,
            Block.deleteObjectPtr]
          rw [if_pos hsz, if_pos hwz]
        · apply hclause1
          simp only [BlockInv]
          refine ⟨hS0, hW0, ?_, ?_⟩ <;> omega
      · -- last shared handle, weak handles remain: destroy the object only
        have hsz : c.shared_ptr_cnt - 1 = 0 := by omega
        have hwz : ¬(c.weak_ptr_cnt - 1 = 0) := by omega
        refine ⟨blocks.set b0
          { cb := some { weak_ptr_cnt := c.weak_ptr_cnt - 1,
                         shared_ptr_cnt := c.shared_ptr_cnt - 1 },
            object_ptr := none,
            deleterCalls := blocks[b0].deleterCalls + 1,
            freeCalls := blocks[b0].freeCalls }, ?_, ?_, by simp, huntouched _⟩
        · simp only [sptrDtorBlocks, hcb, hgetblk, hc, hufalse, ControlBlock.remove_shared,
            Block.deleteObjectPtr]
          rw [if_pos hsz, if_neg hwz]
        · apply hclause1
          simp only [BlockInv]
          refine ⟨by omega, by omega, by omega, by rw [if_pos hS0]; omega, by omega⟩
    · -- other shared handles remain: only the counters move
      have hsz : ¬(c.shared_ptr_cnt - 1 = 0) := by omega
      have hwz : ¬(c.weak_ptr_cnt - 1 = 0) := by omega
      refine ⟨blocks.set b0
        { cb := some { weak_ptr_cnt := c.weak_ptr_cnt - 1,
                       shared_ptr_cnt := c.shared_ptr_cnt - 1 },
          object_ptr := blocks[b0].object_ptr,
          deleterCalls := blocks[b0].deleterCalls,
          freeCalls := blocks[b0].freeCalls }, ?_, ?_, by simp, huntouched _⟩
      · simp only [sptrDtorBlocks, hcb, hgetblk, hc, hufalse, ControlBlock.remove_shared,
          Block.deleteObjectPtr]
        rw [if_neg hsz, if_neg hwz]
      · apply hclause1
        simp only [BlockInv]
        refine ⟨by omega, by omega, by omega, ?_, by omega⟩
        rw [if_neg hS0]
        omega

theorem wptrDtor_core {blocks : List Block} {sh : List (Option shared_ptr)}
    {wk wk' : List (Option weak_ptr)} {wd : weak_ptr}
    (hInv : BlocksInv blocks sh wk)
    (hcnt : ∀ b, countW wk b = countW wk' b + (if wd.control_block_ptr = some b then 1 else 0))
    (hlive : ∀ b, wd.control_block_ptr = some b → 0 < countW wk b) :
    ∃ blocks', wptrDtorBlocks blocks wd = some (blocks', false) ∧
      BlocksInv blocks' sh wk' ∧ blocks'.length = blocks.length ∧
      (∀ b, wd.control_block_ptr ≠ some b → blocks'[b]? = blocks[b]?) := by
  cases hcb : wd.control_block_ptr with
  | none =>
    refine ⟨blocks, by simp [wptrDtorBlocks, hcb], ?_, rfl, fun b _ => rfl⟩
    refine blocksInv_congr hInv (fun b => rfl) (fun b => ?_)
    have h1 := hcnt b
    simp only [hcb] at h1
    simp at h1
    omega
  | some b0 =>
    have hpos : 0 < countW wk b0 := hlive b0 hcb
    have hb0 : b0 < blocks.length := lt_length_of_pos hInv (by omega)
    have hgetblk : blocks[b0]? = some blocks[b0] := List.getElem?_eq_getElem hb0
    have hBI := hInv.1 b0 blocks[b0] hgetblk
    obtain ⟨c, hc, hshared, hweak, hdel, hfree⟩ := cb_of_pos hBI (by omega)
    have hb0cnt : countW wk b0 = countW wk' b0 + 1 := by
      have h1 := hcnt b0
      simp only [hcb] at h1
      simp at h1
      omega
    have hOther : ∀ b, b ≠ b0 → countW wk' b = countW wk b := by
      intro b hb
      have h1 := hcnt b
      simp only [hcb] at h1
      rw [if_neg (by simp [Ne.symm hb])] at h1
      omega
    have hufalse : (decide (c.weak_ptr_cnt = 0)) = false := by
      simp only [decide_eq_false_iff_not]
      omega
    have hclause1 : ∀ blk3 : Block,
        BlockInv sh wk' b0 blk3 →
        BlocksInv (blocks.set b0 blk3) sh wk' := by
      intro blk3 h3
      constructor
      · intro b blk' hget'
        by_cases hbb : b = b0
        · subst hbb
          rw [getElem?_set_lt blocks b blk3 hb0] at hget'
          cases hget'
          exact h3
        · rw [List.getElem?_set_ne (Ne.symm hbb)] at hget'
          exact blockInv_congr rfl (hOther b hbb) (hInv.1 b blk' hget')
      · intro b hb
        rw [List.length_set] at hb
        have hne : b ≠ b0 := by omega
        rw [hOther b hne]
        exact hInv.2 b hb
    have huntouched : ∀ blk3 : Block, ∀ b, (some b0 : Option Nat) ≠ some b →
        (blocks.set b0 blk3)[b]? = blocks[b]? := by
      intro blk3 b hb
      apply List.getElem?_set_ne
      intro hbe
      exact hb (by rw [hbe])
    by_cases hfr : countS sh b0 = 0 ∧ countW wk' b0 = 0
    · -- last reference of any kind: free the control block
      have hwz : c.weak_ptr_cnt - 1 = 0 := by omega
      refine ⟨blocks.set b0
        { cb := none, object_ptr := blocks[b0].object_ptr,
          deleterCalls := blocks[b0].deleterCalls,
          freeCalls := blocks[b0].freeCalls + 1 }, ?_, ?_, by simp, huntouched _⟩
      · simp only [wptrDtorBlocks, hcb, hgetblk, hc, hufalse, ControlBlock.remove_weak]
        rw [if_pos hwz]
      · apply hclause1
        simp only [BlockInv]
        refine ⟨hfr.1, hfr.2, ?_, by omega⟩
        rw [if_pos hfr.1] at hdel
        omega
    · -- other references remain: only the weak counter moves
      have hwz : ¬(c.weak_ptr_cnt - 1 = 0) := by omega
      refine ⟨blocks.set b0
        { cb := some { weak_ptr_cnt := c.weak_ptr_cnt - 1,
                       shared_ptr_cnt := c.shared_ptr_cnt },
          object_ptr := blocks[b0].object_ptr,
          deleterCalls := blocks[b0].deleterCalls,
          freeCalls := blocks[b0].freeCalls }, ?_, ?_, by simp, huntouched _⟩
      · simp only [wptrDtorBlocks, hcb, hgetblk, hc, hufalse, ControlBlock.remove_weak]
        rw [if_neg hwz]
      · apply hclause1
        simp only [BlockInv]
        refine ⟨by omega, by omega, by omega, by rw [hdel], by omega⟩

theorem addShared_core {blocks : List Block} {sh sh' : List (Option shared_ptr)}
    {wk : List (Option weak_ptr)} {b0 : Nat}
    (hInv : BlocksInv blocks sh wk)
    (hpos : 0 < countS sh b0)
    (hcnt : ∀ b, countS sh' b = countS sh b + (if b0 = b then 1 else 0)) :
    ∃ blocks', addSharedBlocks blocks b0 = some blocks' ∧ BlocksInv blocks' sh' wk ∧
      blocks'.length = blocks.length ∧ (∀ b, b ≠ b0 → blocks'[b]? = blocks[b]?) := by
  have hb0 : b0 < blocks.length := lt_length_of_pos hInv (by omega)
  have hgetblk : blocks[b0]? = some blocks[b0] := List.getElem?_eq_getElem hb0
  have hBI := hInv.1 b0 blocks[b0] hgetblk
  obtain ⟨c, hc, hshared, hweak, hdel, hfree⟩ := cb_of_pos hBI (by omega)
  rw [if_neg (by omega)] at hdel
  have hb0cnt : countS sh' b0 = countS sh b0 + 1 := by
    have h1 := hcnt b0
    rw [if_pos rfl] at h1
    exact h1
  have hOther : ∀ b, b ≠ b0 → countS sh' b = countS sh b := by
    intro b hb
    have h1 := hcnt b
    rw [if_neg (Ne.symm hb)] at h1
    omega
  refine ⟨blocks.set b0 { blocks[b0] with cb := some c.add_shared }, ?_, ?_, by simp, ?_⟩
  · simp only [addSharedBlocks, hgetblk, hc]
  · constructor
    · intro b blk' hget'
      by_cases hbb : b = b0
      · subst hbb
        rw [getElem?_set_lt blocks b _ hb0] at hget'
        cases hget'
        simp only [BlockInv, ControlBlock.add_shared]
        refine ⟨by omega, by omega, by omega, by rw [if_neg (by omega)]; omega, by omega⟩
      · rw [List.getElem?_set_ne (Ne.symm hbb)] at hget'
        exact blockInv_congr (hOther b hbb) rfl (hInv.1 b blk' hget')
    · intro b hb
      rw [List.length_set] at hb
      rw [hOther b (by omega)]
      exact hInv.2 b hb
  · intro b hb
    exact List.getElem?_set_ne (Ne.symm hb)

theorem addWeak_core {blocks : List Block} {sh : List (Option shared_ptr)}
    {wk wk' : List (Option weak_ptr)} {b0 : Nat}
    (hInv : BlocksInv blocks sh wk)
    (hpos : 0 < countS sh b0 + countW wk b0)
    (hcnt : ∀ b, countW wk' b = countW wk b + (if b0 = b then 1 else 0)) :
    ∃ blocks', addWeakBlocks blocks b0 = some blocks' ∧ BlocksInv blocks' sh wk' ∧
      blocks'.length = blocks.length ∧ (∀ b, b ≠ b0 → blocks'[b]? = blocks[b]?) := by
  have hb0 : b0 < blocks.length := lt_length_of_pos hInv hpos
  have hgetblk : blocks[b0]? = some blocks[b0] := List.getElem?_eq_getElem hb0
  have hBI := hInv.1 b0 blocks[b0] hgetblk
  obtain ⟨c, hc, hshared, hweak, hdel, hfree⟩ := cb_of_pos hBI hpos
  have hb0cnt : countW wk' b0 = countW wk b0 + 1 := by
    have h1 := hcnt b0
    rw [if_pos rfl] at h1
    exact h1
  have hOther : ∀ b, b ≠ b0 → countW wk' b = countW wk b := by
    intro b hb
    have h1 := hcnt b
    rw [if_neg (Ne.symm hb)] at h1
    omega
  refine ⟨blocks.set b0 { blocks[b0] with cb := some c.add_weak }, ?_, ?_, by simp, ?_⟩
  · simp only [addWeakBlocks, hgetblk, hc]
  · constructor
    · intro b blk' hget'
      by_cases hbb : b = b0
      · subst hbb
        rw [getElem?_set_lt blocks b _ hb0] at hget'
        cases hget'
        simp only [BlockInv, ControlBlock.add_weak]
        refine ⟨by omega, by omega, by omega, by rw [hdel], by omega⟩
      · rw [List.getElem?_set_ne (Ne.symm hbb)] at hget'
        exact blockInv_congr rfl (hOther b hbb) (hInv.1 b blk' hget')
    · intro b hb
      rw [List.length_set] at hb
      rw [hOther b (by omega)]
      exact hInv.2 b hb
  · intro b hb
    exact List.getElem?_set_ne (Ne.symm hb)

theorem newBlock_core {blocks : List Block} {sh sh' : List (Option shared_ptr)}
    {wk : List (Option weak_ptr)} {p : Option Nat}
    (hInv : BlocksInv blocks sh wk)
    (hcnt : ∀ b, countS sh' b = countS sh b + (if blocks.length = b then 1 else 0)) :
    BlocksInv (blocks ++ [newBlock p]) sh' wk := by
  have hOther : ∀ b, b ≠ blocks.length → countS sh' b = countS sh b := by
    intro b hb
    have h1 := hcnt b
    rw [if_neg (Ne.symm hb)] at h1
    omega
  have hNew : countS sh' blocks.length = 1 := by
    have h1 := hcnt blocks.length
    rw [if_pos rfl] at h1
    have h0 := hInv.2 blocks.length (le_refl _)
    omega
  constructor
  · intro b blk' hget'
    by_cases hbb : b = blocks.length
    · subst hbb
      simp at hget'
      subst hget'
      simp only [BlockInv, newBlock]
      have h0 := hInv.2 blocks.length (le_refl _)
      refine ⟨by omega, by omega, by omega, ?_, trivial⟩
      rw [if_neg (by omega)]
    · have hblt : b < blocks.length := by
        by_contra hge
        push_neg at hge
        have : blocks.length + 1 ≤ b := by omega
        rw [List.getElem?_eq_none (by simpa using this)] at hget'
        cases hget'
      rw [List.getElem?_append, if_pos hblt] at hget'
      exact blockInv_congr (hOther b hbb) rfl (hInv.1 b blk' hget')
  · intro b hb
    simp only [List.length_append, List.length_singleton] at hb
    rw [hOther b (by omega)]
    exact hInv.2 b (by omega)

/-! ## Count bookkeeping for each kind of handle-list update -/

theorem onB_slot_none : ∀ b, onB b none = false :=
  fun _ => rfl

theorem onB_empty (q : Option Nat) :
    ∀ b, onB b (some { object_ptr := q, control_block_ptr := none }) = false :=
  fun _ => rfl

theorem onB_dtorFields (hd : shared_ptr) : ∀ b, onB b (some (dtorFields hd)) = false := by
  intro b
  unfold dtorFields
  by_cases h : hd.control_block_ptr.isSome
  · rw [if_pos h]
    rfl
  · rw [if_neg h]
    rw [Option.not_isSome_iff_eq_none] at h
    simp [onB, h]

theorem onW_slot_none : ∀ b, onW b none = false :=
  fun _ => rfl

theorem onW_empty (q : Option Nat) :
    ∀ b, onW b (some { control_block_ptr := none, object_ptr := q }) = false :=
  fun _ => rfl

theorem onW_wdtorFields (wd : weak_ptr) : ∀ b, onW b (some (wdtorFields wd)) = false := by
  intro b
  unfold wdtorFields
  by_cases h : wd.control_block_ptr.isSome
  · rw [if_pos h]
    rfl
  · rw [if_neg h]
    rw [Option.not_isSome_iff_eq_none] at h
    simp [onW, h]

theorem countS_rm {sh : List (Option shared_ptr)} {i : Nat} {hd : shared_ptr}
    {x : Option shared_ptr}
    (hget : sh[i]? = some (some hd)) (hx : ∀ b, onB b x = false) :
    ∀ b, countS sh b = countS (sh.set i x) b
      + (if hd.control_block_ptr = some b then 1 else 0) := by
  intro b
  have hs := countS_set sh i (some hd) x b hget
  rw [hx b] at hs
  simp only [onB] at hs
  by_cases hcb : hd.control_block_ptr = some b
  · rw [if_pos hcb]
    simp only [hcb] at hs
    simp at hs
    omega
  · rw [if_neg hcb]
    simp only [show (hd.control_block_ptr == some b) = false by simp [hcb]] at hs
    simp at hs
    omega

theorem countS_app_on {sh : List (Option shared_ptr)} {h : shared_ptr} {b0 : Nat}
    (hcb : h.control_block_ptr = some b0) :
    ∀ b, countS (sh ++ [some h]) b = countS sh b + (if b0 = b then 1 else 0) := by
  intro b
  rw [countS_append]
  congr 1
  simp only [onB, hcb]
  by_cases hb : b0 = b
  · subst hb
    simp
  · simp [hb]

theorem countS_app_off {sh : List (Option shared_ptr)} {x : Option shared_ptr}
    (hx : ∀ b, onB b x = false) :
    ∀ b, countS (sh ++ [x]) b = countS sh b := by
  intro b
  rw [countS_append, hx b]
  simp

theorem countS_set_on {sh : List (Option shared_ptr)} {i : Nat} {x0 : Option shared_ptr}
    {h1 : shared_ptr} {b0 : Nat}
    (hget : sh[i]? = some x0) (hx0 : ∀ b, onB b x0 = false)
    (hcb : h1.control_block_ptr = some b0) :
    ∀ b, countS (sh.set i (some h1)) b = countS sh b + (if b0 = b then 1 else 0) := by
  intro b
  have hs := countS_set sh i x0 (some h1) b hget
  rw [hx0 b] at hs
  simp only [onB, hcb] at hs
  by_cases hb : b0 = b
  · subst hb
    rw [if_pos rfl]
    simp at hs
    omega
  · rw [if_neg hb]
    rw [show ((some b0 : Option Nat) == some b) = false by simp [hb]] at hs
    simp at hs
    omega

theorem countS_set_off {sh : List (Option shared_ptr)} {i : Nat} {x0 x1 : Option shared_ptr}
    (hget : sh[i]? = some x0) (hx0 : ∀ b, onB b x0 = false) (hx1 : ∀ b, onB b x1 = false) :
    ∀ b, countS (sh.set i x1) b = countS sh b := by
  intro b
  have hs := countS_set sh i x0 x1 b hget
  rw [hx0 b, hx1 b] at hs
  simp at hs
  omega

theorem countW_rm {wk : List (Option weak_ptr)} {i : Nat} {wd : weak_ptr}
    {x : Option weak_ptr}
    (hget : wk[i]? = some (some wd)) (hx : ∀ b, onW b x = false) :
    ∀ b, countW wk b = countW (wk.set i x) b
      + (if wd.control_block_ptr = some b then 1 else 0) := by
  intro b
  have hs := countW_set wk i (some wd) x b hget
  rw [hx b] at hs
  simp only [onW] at hs
  by_cases hcb : wd.control_block_ptr = some b
  · rw [if_pos hcb]
    simp only [hcb] at hs
    simp at hs
    omega
  · rw [if_neg hcb]
    simp only [show (wd.control_block_ptr == some b) = false by simp [hcb]] at hs
    simp at hs
    omega

theorem countW_app_on {wk : List (Option weak_ptr)} {w : weak_ptr} {b0 : Nat}
    (hcb : w.control_block_ptr = some b0) :
    ∀ b, countW (wk ++ [some w]) b = countW wk b + (if b0 = b then 1 else 0) := by
  intro b
  rw [countW_append]
  congr 1
  simp only [onW, hcb]
  by_cases hb : b0 = b
  · subst hb
    simp
  · simp [hb]

theorem countW_app_off {wk : List (Option weak_ptr)} {x : Option weak_ptr}
    (hx : ∀ b, onW b x = false) :
    ∀ b, countW (wk ++ [x]) b = countW wk b := by
  intro b
  rw [countW_append, hx b]
  simp

theorem countW_set_on {wk : List (Option weak_ptr)} {i : Nat} {x0 : Option weak_ptr}
    {w1 : weak_ptr} {b0 : Nat}
    (hget : wk[i]? = some x0) (hx0 : ∀ b, onW b x0 = false)
    (hcb : w1.control_block_ptr = some b0) :
    ∀ b, countW (wk.set i (some w1)) b = countW wk b + (if b0 = b then 1 else 0) := by
  intro b
  have hs := countW_set wk i x0 (some w1) b hget
  rw [hx0 b] at hs
  simp only [onW, hcb] at hs
  by_cases hb : b0 = b
  · subst hb
    rw [if_pos rfl]
    simp at hs
    omega
  · rw [if_neg hb]
    rw [show ((some b0 : Option Nat) == some b) = false by simp [hb]] at hs
    simp at hs
    omega

theorem countW_set_off {wk : List (Option weak_ptr)} {i : Nat} {x0 x1 : Option weak_ptr}
    (hget : wk[i]? = some x0) (hx0 : ∀ b, onW b x0 = false) (hx1 : ∀ b, onW b x1 = false) :
    ∀ b, countW (wk.set i x1) b = countW wk b := by
  intro b
  have hs := countW_set wk i x0 x1 b hget
  rw [hx0 b, hx1 b] at hs
  simp at hs
  omega

theorem onB_cbnone {h : shared_ptr} (hcb : h.control_block_ptr = none) :
    ∀ b, onB b (some h) = false := by
  intro b
  simp [onB, hcb]

theorem onW_cbnone {w : weak_ptr} (hcb : w.control_block_ptr = none) :
    ∀ b, onW b (some w) = false := by
  intro b
  simp [onW, hcb]

theorem countS_move {sh : List (Option shared_ptr)} {i : Nat} {h : shared_ptr}
    (hgi : sh[i]? = some (some h)) :
    ∀ b, countS ((sh.set i (some { object_ptr := none, control_block_ptr := none }))
      ++ [some h]) b = countS sh b := by
  intro b
  have e1 := countS_rm hgi (onB_empty none) b
  cases hcb : h.control_block_ptr with
  | none =>
    rw [countS_app_off (onB_cbnone hcb) b]
    simp only [hcb] at e1
    simp at e1
    omega
  | some b0 =>
    rw [countS_app_on hcb b]
    simp only [hcb] at e1
    by_cases hbb : b0 = b
    · subst hbb
      simp at e1
      simp
      omega
    · simp [hbb] at e1
      simp [hbb]
      omega

theorem countS_swapMove {sh : List (Option shared_ptr)} {i j : Nat} {hd hs : shared_ptr}
    (hij : i ≠ j) (hgi : sh[i]? = some (some hd)) (hgj : sh[j]? = some (some hs)) :
    ∀ b, countS sh b =
      countS ((sh.set i (some hs)).set j (some (dtorFields hd))) b
        + (if hd.control_block_ptr = some b then 1 else 0) := by
  intro b
  have e1 := countS_set sh i (some hd) (some hs) b hgi
  have hgj1 : (sh.set i (some hs))[j]? = some (some hs) := by
    rw [List.getElem?_set_ne hij]
    exact hgj
  have e2 := countS_set (sh.set i (some hs)) j (some hs) (some (dtorFields hd)) b hgj1
  rw [onB_dtorFields hd b] at e2
  by_cases h1 : hd.control_block_ptr = some b <;>
    by_cases h2 : hs.control_block_ptr = some b <;>
    · simp [onB, h1, h2] at e1 e2 ⊢
      omega

theorem countW_swapMove {wk : List (Option weak_ptr)} {i j : Nat} {wd ws : weak_ptr}
    (hij : i ≠ j) (hgi : wk[i]? = some (some wd)) (hgj : wk[j]? = some (some ws)) :
    ∀ b, countW wk b =
      countW ((wk.set i (some ws)).set j (some (wdtorFields wd))) b
        + (if wd.control_block_ptr = some b then 1 else 0) := by
  intro b
  have e1 := countW_set wk i (some wd) (some ws) b hgi
  have hgj1 : (wk.set i (some ws))[j]? = some (some ws) := by
    rw [List.getElem?_set_ne hij]
    exact hgj
  have e2 := countW_set (wk.set i (some ws)) j (some ws) (some (wdtorFields wd)) b hgj1
  rw [onW_wdtorFields wd b] at e2
  by_cases h1 : wd.control_block_ptr = some b <;>
    by_cases h2 : ws.control_block_ptr = some b <;>
    · simp [onW, h1, h2] at e1 e2 ⊢
      omega

theorem length_of_getElem?_some {α : Type} {l : List α} {i : Nat} {a : α}
    (h : l[i]? = some a) : i < l.length :=
  (List.getElem?_eq_some.mp h).1

theorem inv_step_newObj {s s' : St} {v : Int} (hInv : StInv s)
    (hstep : step s (.newObj v) = some s') : StInv s' := by
  simp only [step] at hstep
  cases hstep
  exact hInv

theorem inv_step_fromNull {s s' : St} (hInv : StInv s)
    (hstep : step s .fromNull = some s') : StInv s' := by
  simp only [step] at hstep
  cases hstep
  exact ⟨hInv.1, blocksInv_congr hInv.2 (countS_app_off (onB_empty none)) (fun _ => rfl)⟩

theorem inv_step_fromRaw {s s' : St} {p : Option Nat} (hInv : StInv s)
    (hstep : step s (.fromRaw p) = some s') : StInv s' := by
  simp only [step] at hstep
  cases hstep
  exact ⟨hInv.1, newBlock_core hInv.2 (countS_app_on rfl)⟩

theorem inv_step_copy {s s' : St} {i : Nat} (hInv : StInv s)
    (hstep : step s (.copy i) = some s') : StInv s' := by
  simp only [step] at hstep
  split at hstep
  next h hgi =>
    split at hstep
    next hcb =>
      cases hstep
      exact ⟨hInv.1, blocksInv_congr hInv.2 (countS_app_off (onB_cbnone hcb)) (fun _ => rfl)⟩
    next b hcb =>
      obtain ⟨blocks2, haddeq, hBI2, hlen, hun⟩ :=
        addShared_core hInv.2 (countS_pos_of_live s.shptrs i b h hgi hcb) (countS_app_on hcb)
      split at hstep
      next blocks1 heq3 =>
        rw [haddeq] at heq3
        cases heq3
        cases hstep
        exact ⟨hInv.1, hBI2⟩
      next heq3 =>
        rw [haddeq] at heq3
        cases heq3
  next hgi =>
    cases hstep

theorem inv_step_aliasOf {s s' : St} {i : Nat} {p : Option Nat} (hInv : StInv s)
    (hstep : step s (.aliasOf i p) = some s') : StInv s' := by
  simp only [step] at hstep
  split at hstep
  next h hgi =>
    split at hstep
    next hcb =>
      cases hstep
      exact ⟨hInv.1, blocksInv_congr hInv.2 (countS_app_off (onB_empty p)) (fun _ => rfl)⟩
    next b hcb =>
      obtain ⟨blocks2, haddeq, hBI2, hlen, hun⟩ :=
        addShared_core hInv.2 (countS_pos_of_live s.shptrs i b h hgi hcb)
          (countS_app_on
            (rfl : (⟨p, some b⟩ : shared_ptr).control_block_ptr = some b))
      split at hstep
      next blocks1 heq3 =>
        rw [haddeq] at heq3
        cases heq3
        cases hstep
        exact ⟨hInv.1, hBI2⟩
      next heq3 =>
        rw [haddeq] at heq3
        cases heq3
  next hgi =>
    cases hstep

theorem inv_step_moveCtor {s s' : St} {i : Nat} (hInv : StInv s)
    (hstep : step s (.moveCtor i) = some s') : StInv s' := by
  simp only [step] at hstep
  split at hstep
  next h hgi =>
    cases hstep
    exact ⟨hInv.1, blocksInv_congr hInv.2 (countS_move hgi) (fun _ => rfl)⟩
  next hgi =>
    cases hstep

theorem inv_step_destroy {s s' : St} {i : Nat} (hInv : StInv s)
    (hstep : step s (.destroy i) = some s') : StInv s' := by
  simp only [step] at hstep
  split at hstep
  next h hgi =>
    obtain ⟨blocks2, hdeq, hBI2, hlen, hun⟩ :=
      sptrDtor_core hInv.2 (countS_rm hgi onB_slot_none)
        (fun b hcb => countS_pos_of_live s.shptrs i b h hgi hcb)
    split at hstep
    next blocks1 uf heq3 =>
      rw [hdeq] at heq3
      cases heq3
      cases hstep
      exact ⟨by simp [hInv.1], hBI2⟩
    next heq3 =>
      rw [hdeq] at heq3
      cases heq3
  next hgi =>
    cases hstep

theorem inv_step_reset {s s' : St} {i : Nat} (hInv : StInv s)
    (hstep : step s (.reset i) = some s') : StInv s' := by
  simp only [step] at hstep
  split at hstep
  next h hgi =>
    obtain ⟨blocks2, hdeq, hBI2, hlen, hun⟩ :=
      sptrDtor_core hInv.2 (countS_rm hgi (onB_dtorFields h))
        (fun b hcb => countS_pos_of_live s.shptrs i b h hgi hcb)
    split at hstep
    next blocks1 uf heq3 =>
      rw [hdeq] at heq3
      cases heq3
      cases hstep
      exact ⟨by simp [hInv.1], hBI2⟩
    next heq3 =>
      rw [hdeq] at heq3
      cases heq3
  next hgi =>
    cases hstep

theorem inv_step_resetPtrFail {s s' : St} {i : Nat} {p : Option Nat} (hInv : StInv s)
    (hstep : step s (.resetPtrFail i p) = some s') : StInv s' := by
  simp only [step] at hstep
  split at hstep
  next h hgi =>
    obtain ⟨blocks2, hdeq, hBI2, hlen, hun⟩ :=
      sptrDtor_core hInv.2 (countS_rm hgi (onB_empty p))
        (fun b hcb => countS_pos_of_live s.shptrs i b h hgi hcb)
    split at hstep
    next blocks1 uf heq3 =>
      rw [hdeq] at heq3
      cases heq3
      cases hstep
      exact ⟨by simp [hInv.1], hBI2⟩
    next heq3 =>
      rw [hdeq] at heq3
      cases heq3
  next hgi =>
    cases hstep

theorem inv_step_resetPtr {s s' : St} {i : Nat} {p : Option Nat} (hInv : StInv s)
    (hstep : step s (.resetPtr i p) = some s') : StInv s' := by
  simp only [step] at hstep
  split at hstep
  next h hgi =>
    obtain ⟨blocks2, hdeq, hBI2, hlen, hun⟩ :=
      sptrDtor_core hInv.2 (countS_rm hgi (onB_empty none))
        (fun b hcb => countS_pos_of_live s.shptrs i b h hgi hcb)
    split at hstep
    next blocks1 uf heq3 =>
      rw [hdeq] at heq3
      cases heq3
      cases hstep
      refine ⟨by simp [hInv.1], ?_⟩
      have hmid : (s.shptrs.set i (some { object_ptr := none, control_block_ptr := none }))[i]?
          = some (some { object_ptr := none, control_block_ptr := none }) :=
        getElem?_set_lt _ _ _ (length_of_getElem?_some hgi)
      have hfin : ∀ b,
          countS (s.shptrs.set i
            (some { object_ptr := p, control_block_ptr := some blocks2.length })) b
          = countS (s.shptrs.set i
              (some { object_ptr := none, control_block_ptr := none })) b
            + (if blocks2.length = b then 1 else 0) := by
        intro b
        have hh := countS_set_on hmid (onB_empty none)
          (rfl : (⟨p, some blocks2.length⟩ : shared_ptr).control_block_ptr
            = some blocks2.length) b
        rw [List.set_set] at hh
        exact hh
      exact newBlock_core hBI2 hfin
    next heq3 =>
      rw [hdeq] at heq3
      cases heq3
  next hgi =>
    cases hstep

theorem inv_step_assignMove {s s' : St} {i j : Nat} (hInv : StInv s)
    (hstep : step s (.assignMove i j) = some s') : StInv s' := by
  simp only [step] at hstep
  by_cases hij : i = j
  · rw [if_pos hij] at hstep
    cases hstep
    exact hInv
  · rw [if_neg hij] at hstep
    split at hstep
    next hd hs hgi hgj =>
      obtain ⟨blocks2, hdeq, hBI2, hlen, hun⟩ :=
        sptrDtor_core hInv.2 (countS_swapMove hij hgi hgj)
          (fun b hcb => countS_pos_of_live s.shptrs i b hd hgi hcb)
      split at hstep
      next blocks1 uf heq3 =>
        rw [hdeq] at heq3
        cases heq3
        cases hstep
        exact ⟨by simp [hInv.1], hBI2⟩
      next heq3 =>
        rw [hdeq] at heq3
        cases heq3
    next hne =>
      cases hstep

theorem inv_step_assign {s s' : St} {i j : Nat} (hInv : StInv s)
    (hstep : step s (.assign i j) = some s') : StInv s' := by
  simp only [step] at hstep
  by_cases hij : i = j
  · rw [if_pos hij] at hstep
    cases hstep
    exact hInv
  · rw [if_neg hij] at hstep
    split at hstep
    next hd hs hgi hgj =>
      obtain ⟨blocks2, hdeq, hBI2, hlen, hun⟩ :=
        sptrDtor_core hInv.2 (countS_rm hgi (onB_empty none))
          (fun b hcb => countS_pos_of_live s.shptrs i b hd hgi hcb)
      have hmid : (s.shptrs.set i (some { object_ptr := none, control_block_ptr := none }))[i]?
          = some (some { object_ptr := none, control_block_ptr := none }) :=
        getElem?_set_lt _ _ _ (length_of_getElem?_some hgi)
      split at hstep
      next blocks1 uf heq3 =>
        rw [hdeq] at heq3
        cases heq3
        split at hstep
        next hcbs =>
          cases hstep
          refine ⟨by simp [hInv.1], ?_⟩
          refine blocksInv_congr hBI2 (fun b => ?_) (fun _ => rfl)
          have hh := countS_set_off hmid (onB_empty none) (onB_cbnone hcbs) b
          rw [List.set_set] at hh
          exact hh
        next b hcbs =>
          have hgj1 : (s.shptrs.set i
              (some { object_ptr := none, control_block_ptr := none }))[j]?
              = some (some hs) := by
            rw [List.getElem?_set_ne hij]
            exact hgj
          have hfin : ∀ b2,
              countS (s.shptrs.set i (some hs)) b2
              = countS (s.shptrs.set i
                  (some { object_ptr := none, control_block_ptr := none })) b2
                + (if b = b2 then 1 else 0) := by
            intro b2
            have hh := countS_set_on hmid (onB_empty none) hcbs b2
            rw [List.set_set] at hh
            exact hh
          obtain ⟨blocks3, haddeq, hBI3, hlen3, hun3⟩ :=
            addShared_core hBI2 (countS_pos_of_live _ j b hs hgj1 hcbs) hfin
          split at hstep
          next blocks4 heq4 =>
            rw [haddeq] at heq4
            cases heq4
            cases hstep
            exact ⟨by simp [hInv.1], hBI3⟩
          next heq4 =>
            rw [haddeq] at heq4
            cases heq4
      next heq3 =>
        rw [hdeq] at heq3
        cases heq3
    next hne =>
      cases hstep

theorem inv_step_wfromShared {s s' : St} {i : Nat} (hInv : StInv s)
    (hstep : step s (.wfromShared i) = some s') : StInv s' := by
  simp only [step] at hstep
  split at hstep
  next h hgi =>
    split at hstep
    next hcb =>
      cases hstep
      exact ⟨hInv.1, blocksInv_congr hInv.2 (fun _ => rfl)
        (countW_app_off (onW_empty h.object_ptr))⟩
    next b hcb =>
      have hpos : 0 < countS s.shptrs b + countW s.wptrs b := by
        have := countS_pos_of_live s.shptrs i b h hgi hcb
        omega
      obtain ⟨blocks2, haddeq, hBI2, hlen, hun⟩ :=
        addWeak_core hInv.2 hpos
          (countW_app_on
            (rfl : (⟨some b, h.object_ptr⟩ : weak_ptr).control_block_ptr = some b))
      split at hstep
      next blocks1 heq3 =>
        rw [haddeq] at heq3
        cases heq3
        cases hstep
        exact ⟨hInv.1, hBI2⟩
      next heq3 =>
        rw [haddeq] at heq3
        cases heq3
  next hgi =>
    cases hstep

theorem inv_step_wcopy {s s' : St} {i : Nat} (hInv : StInv s)
    (hstep : step s (.wcopy i) = some s') : StInv s' := by
  simp only [step] at hstep
  split at hstep
  next w hgi =>
    split at hstep
    next hcb =>
      cases hstep
      exact ⟨hInv.1, blocksInv_congr hInv.2 (fun _ => rfl)
        (countW_app_off (onW_cbnone hcb))⟩
    next b hcb =>
      have hpos : 0 < countS s.shptrs b + countW s.wptrs b := by
        have := countW_pos_of_live s.wptrs i b w hgi hcb
        omega
      obtain ⟨blocks2, haddeq, hBI2, hlen, hun⟩ :=
        addWeak_core hInv.2 hpos (countW_app_on hcb)
      split at hstep
      next blocks1 heq3 =>
        rw [haddeq] at heq3
        cases heq3
        cases hstep
        exact ⟨hInv.1, hBI2⟩
      next heq3 =>
        rw [haddeq] at heq3
        cases heq3
  next hgi =>
    cases hstep

theorem inv_step_wdestroy {s s' : St} {i : Nat} (hInv : StInv s)
    (hstep : step s (.wdestroy i) = some s') : StInv s' := by
  simp only [step] at hstep
  split at hstep
  next w hgi =>
    obtain ⟨blocks2, hdeq, hBI2, hlen, hun⟩ :=
      wptrDtor_core hInv.2 (countW_rm hgi onW_slot_none)
        (fun b hcb => countW_pos_of_live s.wptrs i b w hgi hcb)
    split at hstep
    next blocks1 uf heq3 =>
      rw [hdeq] at heq3
      cases heq3
      cases hstep
      exact ⟨by simp [hInv.1], hBI2⟩
    next heq3 =>
      rw [hdeq] at heq3
      cases heq3
  next hgi =>
    cases hstep

theorem inv_step_wassignW {s s' : St} {i j : Nat} (hInv : StInv s)
    (hstep : step s (.wassignW i j) = some s') : StInv s' := by
  simp only [step] at hstep
  split at hstep
  next wd ws hgi hgj =>
    by_cases hsame : wd.control_block_ptr = ws.control_block_ptr
    · rw [if_pos hsame] at hstep
      cases hstep
      exact hInv
    · rw [if_neg hsame] at hstep
      have hij : i ≠ j := by
        intro he
        subst he
        rw [hgi] at hgj
        cases hgj
        exact hsame rfl
      obtain ⟨blocks2, hdeq, hBI2, hlen, hun⟩ :=
        wptrDtor_core hInv.2 (countW_rm hgi (onW_empty none))
          (fun b hcb => countW_pos_of_live s.wptrs i b wd hgi hcb)
      have hmid : (s.wptrs.set i
          (some { control_block_ptr := none, object_ptr := none }))[i]?
          = some (some { control_block_ptr := none, object_ptr := none }) :=
        getElem?_set_lt _ _ _ (length_of_getElem?_some hgi)
      split at hstep
      next blocks1 uf heq3 =>
        rw [hdeq] at heq3
        cases heq3
        split at hstep
        next hcbs =>
          cases hstep
          refine ⟨by simp [hInv.1], ?_⟩
          refine blocksInv_congr hBI2 (fun _ => rfl) (fun b => ?_)
          have hh := countW_set_off hmid (onW_empty none) (onW_cbnone hcbs) b
          rw [List.set_set] at hh
          exact hh
        next b hcbs =>
          have hgj1 : (s.wptrs.set i
              (some { control_block_ptr := none, object_ptr := none }))[j]?
              = some (some ws) := by
            rw [List.getElem?_set_ne hij]
            exact hgj
          have hpos : 0 < countS s.shptrs b
              + countW (s.wptrs.set i
                  (some { control_block_ptr := none, object_ptr := none })) b := by
            have := countW_pos_of_live _ j b ws hgj1 hcbs
            omega
          have hfin : ∀ b2,
              countW (s.wptrs.set i (some ws)) b2
              = countW (s.wptrs.set i
                  (some { control_block_ptr := none, object_ptr := none })) b2
                + (if b = b2 then 1 else 0) := by
            intro b2
            have hh := countW_set_on hmid (onW_empty none) hcbs b2
            rw [List.set_set] at hh
            exact hh
          obtain ⟨blocks3, haddeq, hBI3, hlen3, hun3⟩ := addWeak_core hBI2 hpos hfin
          split at hstep
          next blocks4 heq4 =>
            rw [haddeq] at heq4
            cases heq4
            cases hstep
            exact ⟨by simp [hInv.1], hBI3⟩
          next heq4 =>
            rw [haddeq] at heq4
            cases heq4
      next heq3 =>
        rw [hdeq] at heq3
        cases heq3
  next hne =>
    cases hstep

theorem inv_step_wassignMove {s s' : St} {i j : Nat} (hInv : StInv s)
    (hstep : step s (.wassignMove i j) = some s') : StInv s' := by
  simp only [step] at hstep
  split at hstep
  next wd ws hgi hgj =>
    by_cases hsame : wd.control_block_ptr = ws.control_block_ptr
    · rw [if_pos hsame] at hstep
      cases hstep
      exact hInv
    · rw [if_neg hsame] at hstep
      have hij : i ≠ j := by
        intro he
        subst he
        rw [hgi] at hgj
        cases hgj
        exact hsame rfl
      obtain ⟨blocks2, hdeq, hBI2, hlen, hun⟩ :=
        wptrDtor_core hInv.2 (countW_swapMove hij hgi hgj)
          (fun b hcb => countW_pos_of_live s.wptrs i b wd hgi hcb)
      split at hstep
      next blocks1 uf heq3 =>
        rw [hdeq] at heq3
        cases heq3
        cases hstep
        exact ⟨by simp [hInv.1], hBI2⟩
      next heq3 =>
        rw [hdeq] at heq3
        cases heq3
  next hne =>
    cases hstep

theorem inv_step_wassignS {s s' : St} {i j : Nat} (hInv : StInv s)
    (hstep : step s (.wassignS i j) = some s') : StInv s' := by
  simp only [step] at hstep
  split at hstep
  next wd hs hgi hgj =>
    by_cases hsame : wd.control_block_ptr = hs.control_block_ptr
    · rw [if_pos hsame] at hstep
      cases hstep
      exact hInv
    · rw [if_neg hsame] at hstep
      obtain ⟨blocks2, hdeq, hBI2, hlen, hun⟩ :=
        wptrDtor_core hInv.2 (countW_rm hgi (onW_empty none))
          (fun b hcb => countW_pos_of_live s.wptrs i b wd hgi hcb)
      have hmid : (s.wptrs.set i
          (some { control_block_ptr := none, object_ptr := none }))[i]?
          = some (some { control_block_ptr := none, object_ptr := none }) :=
        getElem?_set_lt _ _ _ (length_of_getElem?_some hgi)
      split at hstep
      next blocks1 uf heq3 =>
        rw [hdeq] at heq3
        cases heq3
        split at hstep
        next hcbs =>
          cases hstep
          refine ⟨by simp [hInv.1], ?_⟩
          refine blocksInv_congr hBI2 (fun _ => rfl) (fun b => ?_)
          have hh := countW_set_off hmid (onW_empty none) (onW_empty hs.object_ptr) b
          rw [List.set_set] at hh
          exact hh
        next b hcbs =>
          have hpos : 0 < countS s.shptrs b
              + countW (s.wptrs.set i
                  (some { control_block_ptr := none, object_ptr := none })) b := by
            have := countS_pos_of_live s.shptrs j b hs hgj hcbs
            omega
          have hfin : ∀ b2,
              countW (s.wptrs.set i
                (some { control_block_ptr := some b, object_ptr := hs.object_ptr })) b2
              = countW (s.wptrs.set i
                  (some { control_block_ptr := none, object_ptr := none })) b2
                + (if b = b2 then 1 else 0) := by
            intro b2
            have hh := countW_set_on hmid (onW_empty none)
              (rfl : (⟨some b, hs.object_ptr⟩ : weak_ptr).control_block_ptr = some b) b2
            rw [List.set_set] at hh
            exact hh
          obtain ⟨blocks3, haddeq, hBI3, hlen3, hun3⟩ := addWeak_core hBI2 hpos hfin
          split at hstep
          next blocks4 heq4 =>
            rw [haddeq] at heq4
            cases heq4
            cases hstep
            exact ⟨by simp [hInv.1], hBI3⟩
          next heq4 =>
            rw [haddeq] at heq4
            cases heq4
      next heq3 =>
        rw [hdeq] at heq3
        cases heq3
  next hne =>
    cases hstep

theorem inv_step_lock {s s' : St} {i : Nat} (hInv : StInv s)
    (hstep : step s (.lock i) = some s') : StInv s' := by
  simp only [step] at hstep
  split at hstep
  next w hgi =>
    split at hstep
    next hcb =>
      cases hstep
      exact ⟨hInv.1, blocksInv_congr hInv.2 (countS_app_off (onB_empty none)) (fun _ => rfl)⟩
    next b hcb =>
      split at hstep
      next hgb =>
        cases hstep
      next blk hgb =>
        split at hstep
        next hcbblk =>
          cases hstep
        next c hcbblk =>
          have hBIb := hInv.2.1 b blk hgb
          simp only [BlockInv, hcbblk] at hBIb
          by_cases hz : c.shared_ptr_cnt = 0
          · rw [if_pos hz] at hstep
            cases hstep
            exact ⟨hInv.1, blocksInv_congr hInv.2 (countS_app_off (onB_empty none))
              (fun _ => rfl)⟩
          · rw [if_neg hz] at hstep
            have hpos : 0 < countS s.shptrs b := by omega
            obtain ⟨blocks2, haddeq, hBI2, hlen, hun⟩ :=
              addShared_core hInv.2 hpos
                (countS_app_on
                  (rfl : (⟨w.object_ptr, some b⟩ : shared_ptr).control_block_ptr = some b))
            split at hstep
            next blocks1 heq3 =>
              rw [haddeq] at heq3
              cases heq3
              cases hstep
              exact ⟨hInv.1, hBI2⟩
            next heq3 =>
              rw [haddeq] at heq3
              cases heq3
  next hgi =>
    cases hstep

/-- Every API call preserves the state invariant. -/
theorem inv_step {s : St} {op : Op} {s' : St} (hInv : StInv s)
    (hstep : step s op = some s') : StInv s' := by
  cases op with
  | newObj v => exact inv_step_newObj hInv hstep
  | fromRaw p => exact inv_step_fromRaw hInv hstep
  | fromNull => exact inv_step_fromNull hInv hstep
  | copy i => exact inv_step_copy hInv hstep
  | aliasOf i p => exact inv_step_aliasOf hInv hstep
  | moveCtor i => exact inv_step_moveCtor hInv hstep
  | assign i j => exact inv_step_assign hInv hstep
  | assignMove i j => exact inv_step_assignMove hInv hstep
  | destroy i => exact inv_step_destroy hInv hstep
  | reset i => exact inv_step_reset hInv hstep
  | resetPtr i p => exact inv_step_resetPtr hInv hstep
  | resetPtrFail i p => exact inv_step_resetPtrFail hInv hstep
  | wfromShared i => exact inv_step_wfromShared hInv hstep
  | wcopy i => exact inv_step_wcopy hInv hstep
  | wassignW i j => exact inv_step_wassignW hInv hstep
  | wassignMove i j => exact inv_step_wassignMove hInv hstep
  | wassignS i j => exact inv_step_wassignS hInv hstep
  | wdestroy i => exact inv_step_wdestroy hInv hstep
  | lock i => exact inv_step_lock hInv hstep

/-- The empty initial state satisfies the invariant. -/
theorem inv_init : StInv init := by
  refine ⟨rfl, fun b blk hget => ?_, fun b _ => ⟨rfl, rfl⟩⟩
  simp [init] at hget

theorem inv_runFrom {s : St} {ops : List Op} {s' : St} (hInv : StInv s)
    (hrun : runFrom s ops = some s') : StInv s' := by
  induction ops generalizing s with
  | nil =>
    simp only [runFrom] at hrun
    cases hrun
    exact hInv
  | cons op rest ih =>
    simp only [runFrom] at hrun
    split at hrun
    next s1 hstep => exact ih (inv_step hInv hstep) hrun
    next hstep => cases hrun

/-- Every state reachable from the empty state by a sequence of API calls
satisfies the invariant. -/
theorem inv_run {ops : List Op} {s : St} (hrun : run ops = some s) : StInv s :=
  inv_runFrom inv_init hrun

/-! ## Claim theorems -/

theorem dtorFields_cb_none (hd : shared_ptr) : (dtorFields hd).control_block_ptr = none := by
  unfold dtorFields
  by_cases h : hd.control_block_ptr.isSome
  · rw [if_pos h]
  · rw [if_neg h]
    exact Option.not_isSome_iff_eq_none.mp h

/-- C1: in every reachable state, `use_count()` on any live handle that holds
a control block equals the number of live `shared_ptr` handles sharing that
control block (and is positive), and a still-allocated control block's
`shared_ptr_cnt` is 0 exactly when no live handle shares it any more, i.e.
exactly once the last such handle has been destroyed or reset. -/
theorem C1_use_count_eq_live_handles (ops : List Op) (s : St) (hrun : run ops = some s) :
    (∀ (i b : Nat) (h : shared_ptr), s.shptrs[i]? = some (some h) →
      h.control_block_ptr = some b →
      use_count s h = countS s.shptrs b ∧ 0 < use_count s h) ∧
    (∀ (b : Nat) (blk : Block) (c : ControlBlock), s.blocks[b]? = some blk →
      blk.cb = some c →
      (c.shared_ptr_cnt = 0 ↔ countS s.shptrs b = 0)) := by
  have hInv := inv_run hrun
  constructor
  · intro i b h hgi hcb
    have hpos := countS_pos_of_live s.shptrs i b h hgi hcb
    have hblt : b < s.blocks.length := lt_length_of_pos hInv.2 (by omega)
    have hgb : s.blocks[b]? = some s.blocks[b] := List.getElem?_eq_getElem hblt
    have hBI := hInv.2.1 b s.blocks[b] hgb
    obtain ⟨c, hc, hshared, hrest⟩ := cb_of_pos hBI (by omega)
    simp only [use_count, hcb, hgb, hc]
    omega
  · intro b blk c hgb hc
    have hBI := hInv.2.1 b blk hgb
    simp only [BlockInv, hc] at hBI
    omega

theorem C1_witness :
    use_count ⟨[42], [⟨some ⟨2, 2⟩, some 0, 0, 0⟩],
        [some ⟨some 0, some 0⟩, some ⟨some 0, some 0⟩], [], false⟩ ⟨some 0, some 0⟩
      = countS [some ⟨some 0, some 0⟩, some ⟨some 0, some 0⟩] 0 ∧
    0 < use_count ⟨[42], [⟨some ⟨2, 2⟩, some 0, 0, 0⟩],
        [some ⟨some 0, some 0⟩, some ⟨some 0, some 0⟩], [], false⟩ ⟨some 0, some 0⟩ :=
  (C1_use_count_eq_live_handles [.newObj 42, .fromRaw (some 0), .copy 0]
    ⟨[42], [⟨some ⟨2, 2⟩, some 0, 0, 0⟩],
      [some ⟨some 0, some 0⟩, some ⟨some 0, some 0⟩], [], false⟩ rfl).1
    0 0 ⟨some 0, some 0⟩ rfl rfl

/-- C2: in every reachable state and for every allocated control block, the
deleter (object destruction) has run at most once, `delete` on the control
block has run at most once, the control block is only freed after the object
was destroyed, the object has been destroyed exactly when no live shared
handle is left (no matter how many weak handles remain), and the control
block has been freed exactly when no handle of either kind is left. -/
theorem C2_destroy_and_free_once (ops : List Op) (s : St) (hrun : run ops = some s) :
    ∀ (b : Nat) (blk : Block), s.blocks[b]? = some blk →
      blk.deleterCalls ≤ 1 ∧
      blk.freeCalls ≤ 1 ∧
      (blk.freeCalls = 1 → blk.deleterCalls = 1) ∧
      (blk.deleterCalls = 1 ↔ countS s.shptrs b = 0) ∧
      (blk.freeCalls = 1 ↔ countS s.shptrs b = 0 ∧ countW s.wptrs b = 0) ∧
      (blk.cb = none ↔ blk.freeCalls = 1) := by
  have hInv := inv_run hrun
  intro b blk hgb
  have hBI := hInv.2.1 b blk hgb
  cases hc : blk.cb with
  | none =>
    simp only [BlockInv, hc] at hBI
    refine ⟨by omega, by omega, by omega, by omega, by omega, ?_⟩
    simp
    omega
  | some c =>
    simp only [BlockInv, hc] at hBI
    by_cases hz : countS s.shptrs b = 0
    · rw [if_pos hz] at hBI
      refine ⟨by omega, by omega, by omega, by omega, by omega, ?_⟩
      simp
      omega
    · rw [if_neg hz] at hBI
      refine ⟨by omega, by omega, by omega, by omega, by omega, ?_⟩
      simp
      omega

theorem C2_witness :
    (1 : Nat) ≤ 1 ∧ (1 : Nat) ≤ 1 ∧ ((1 : Nat) = 1 → (1 : Nat) = 1) ∧
      ((1 : Nat) = 1 ↔ countS [(none : Option shared_ptr)] 0 = 0) ∧
      ((1 : Nat) = 1 ↔ countS [(none : Option shared_ptr)] 0 = 0
        ∧ countW [(none : Option weak_ptr)] 0 = 0) ∧
      ((none : Option ControlBlock) = none ↔ (1 : Nat) = 1) := by
  have h := C2_destroy_and_free_once
    [.newObj 42, .fromRaw (some 0), .wfromShared 0, .destroy 0, .wdestroy 0]
    ⟨[42], [⟨none, none, 1, 1⟩], [none], [none], false⟩ rfl 0 ⟨none, none, 1, 1⟩ rfl
  exact h

/-- C3: in every reachable state no `size_t` decrement has ever been applied
to a zero counter (the ghost underflow flag is still clear), and every
allocated control block with a positive shared count satisfies
`shared_ptr_cnt ≤ weak_ptr_cnt`. -/
theorem C3_weak_ge_shared_no_underflow (ops : List Op) (s : St) (hrun : run ops = some s) :
    s.underflow = false ∧
    ∀ (b : Nat) (blk : Block) (c : ControlBlock), s.blocks[b]? = some blk →
      blk.cb = some c →
      0 < c.shared_ptr_cnt → c.shared_ptr_cnt ≤ c.weak_ptr_cnt := by
  have hInv := inv_run hrun
  refine ⟨hInv.1, ?_⟩
  intro b blk c hgb hc hpos
  have hBI := hInv.2.1 b blk hgb
  simp only [BlockInv, hc] at hBI
  omega

theorem C3_witness :
    (⟨[], [⟨some ⟨2, 1⟩, none, 0, 0⟩], [some ⟨none, some 0⟩],
        [some ⟨some 0, none⟩], false⟩ : St).underflow = false ∧
    (0 : Nat) < 1 ∧ (1 : Nat) ≤ 2 := by
  have h := C3_weak_ge_shared_no_underflow [.fromRaw none, .wfromShared 0]
    ⟨[], [⟨some ⟨2, 1⟩, none, 0, 0⟩], [some ⟨none, some 0⟩],
      [some ⟨some 0, none⟩], false⟩ rfl
  exact ⟨h.1, by decide, h.2 0 ⟨some ⟨2, 1⟩, none, 0, 0⟩ ⟨2, 1⟩ rfl rfl (by decide)⟩

/-- C5: `reset(new_ptr, deleter)` assigns `object_ptr = new_ptr` (line 182)
before allocating the control block (line 183), so when that allocation
fails the handle is left half-installed: its cached object pointer is the
new raw pointer (`get()` non-null, boolean conversion true) while its
control-block pointer is null (`use_count() == 0`).  The old ownership was
already released.  This contradicts the spec's guarantee that no partial
state is left. -/
theorem C5_resetPtrFail_leaves_partial_state :
    run [.newObj 1, .fromRaw (some 0), .newObj 9, .resetPtrFail 0 (some 1)]
      = some ⟨[1, 9], [⟨none, none, 1, 1⟩], [some ⟨some 1, none⟩], [], false⟩ ∧
    (⟨[1, 9], [⟨none, none, 1, 1⟩], [some ⟨some 1, none⟩], [], false⟩ : St).shptrs[0]?
      = some (some { object_ptr := some 1, control_block_ptr := none }) ∧
    opBool { object_ptr := some 1, control_block_ptr := none } = true ∧
    shared_ptr.get { object_ptr := some 1, control_block_ptr := none } = some 1 ∧
    use_count ⟨[1, 9], [⟨none, none, 1, 1⟩], [some ⟨some 1, none⟩], [], false⟩
      { object_ptr := some 1, control_block_ptr := none } = 0 :=
  ⟨rfl, rfl, rfl, rfl, rfl⟩

/-- C6: copy self-assignment and move self-assignment short-circuit on the
identity test `this == &other` (lines 122, 135) and leave the entire state
unchanged: the handle's `use_count()`, cached object pointer, control block
and pointee are all untouched. -/
theorem C6_self_assignment_noop (s : St) (i : Nat) :
    step s (.assign i i) = some s ∧ step s (.assignMove i i) = some s := by
  constructor <;> simp [step]

/-- C8: the concrete scenario from the spec: `h1` built from `new int(42)`
has `use_count() == 1`; after copying to `h2` both report 2; after
destroying `h1`, `h2` reports 1, `*h2 == 42`, and the deleter has not run;
after destroying `h2` the deleter has run exactly once (and the control
block was freed exactly once). -/
theorem C8_scenario :
    (run [.newObj 42, .fromRaw (some 0)]
        = some ⟨[42], [⟨some ⟨1, 1⟩, some 0, 0, 0⟩], [some ⟨some 0, some 0⟩], [], false⟩ ∧
      use_count ⟨[42], [⟨some ⟨1, 1⟩, some 0, 0, 0⟩], [some ⟨some 0, some 0⟩], [], false⟩
        ⟨some 0, some 0⟩ = 1) ∧
    (run [.newObj 42, .fromRaw (some 0), .copy 0]
        = some ⟨[42], [⟨some ⟨2, 2⟩, some 0, 0, 0⟩],
            [some ⟨some 0, some 0⟩, some ⟨some 0, some 0⟩], [], false⟩ ∧
      use_count ⟨[42], [⟨some ⟨2, 2⟩, some 0, 0, 0⟩],
          [some ⟨some 0, some 0⟩, some ⟨some 0, some 0⟩], [], false⟩
        ⟨some 0, some 0⟩ = 2) ∧
    (run [.newObj 42, .fromRaw (some 0), .copy 0, .destroy 0]
        = some ⟨[42], [⟨some ⟨1, 1⟩, some 0, 0, 0⟩],
            [none, some ⟨some 0, some 0⟩], [], false⟩ ∧
      use_count ⟨[42], [⟨some ⟨1, 1⟩, some 0, 0, 0⟩],
          [none, some ⟨some 0, some 0⟩], [], false⟩ ⟨some 0, some 0⟩ = 1 ∧
      deref ⟨[42], [⟨some ⟨1, 1⟩, some 0, 0, 0⟩],
          [none, some ⟨some 0, some 0⟩], [], false⟩ ⟨some 0, some 0⟩ = some 42 ∧
      (⟨[42], [⟨some ⟨1, 1⟩, some 0, 0, 0⟩],
          [none, some ⟨some 0, some 0⟩], [], false⟩ : St).blocks[0]?
        = some ⟨some ⟨1, 1⟩, some 0, 0, 0⟩) ∧
    (run [.newObj 42, .fromRaw (some 0), .copy 0, .destroy 0, .destroy 1]
        = some ⟨[42], [⟨none, none, 1, 1⟩], [none, none], [], false⟩ ∧
      (⟨[42], [⟨none, none, 1, 1⟩], [none, none], [], false⟩ : St).blocks[0]?
        = some ⟨none, none, 1, 1⟩) :=
  ⟨⟨rfl, rfl⟩, ⟨rfl, rfl⟩, ⟨rfl, rfl, rfl, rfl⟩, rfl, rfl⟩

/-- C9: constructing from a raw pointer whose value is null still allocates
a fresh control block with counts `{1, 1}`: the resulting handle reports
`use_count() == 1`, converts to `false`, and `get()` returns null. -/
theorem C9_null_raw_ctor (s : St) :
    step s (.fromRaw none) = some { s with
      blocks := s.blocks ++ [newBlock none],
      shptrs := s.shptrs ++
        [some { object_ptr := none, control_block_ptr := some s.blocks.length }] } ∧
    (newBlock none).cb = some { weak_ptr_cnt := 1, shared_ptr_cnt := 1 } ∧
    use_count { s with
        blocks := s.blocks ++ [newBlock none],
        shptrs := s.shptrs ++
          [some { object_ptr := none, control_block_ptr := some s.blocks.length }] }
      { object_ptr := none, control_block_ptr := some s.blocks.length } = 1 ∧
    opBool { object_ptr := none, control_block_ptr := some s.blocks.length } = false ∧
    shared_ptr.get { object_ptr := none, control_block_ptr := some s.blocks.length }
      = none := by
  refine ⟨rfl, rfl, ?_, rfl, rfl⟩
  simp [use_count, newBlock]

/-- C4: `lock()` (lines 259-269) returns an empty handle when the weak
handle has no control block or the block's shared count is 0; otherwise it
returns a handle sharing the weak handle's control block after
`add_shared()`, so the new handle's `use_count()` is one greater than the
shared count observed immediately before the call, and the weak count was
incremented as well. -/
theorem C4_lock (s : St) (i : Nat) (w : weak_ptr)
    (hw : s.wptrs[i]? = some (some w)) :
    (w.control_block_ptr = none →
      step s (.lock i) = some { s with shptrs := s.shptrs ++
        [some { object_ptr := none, control_block_ptr := none }] }) ∧
    (∀ (b : Nat) (blk : Block) (c : ControlBlock),
      w.control_block_ptr = some b → s.blocks[b]? = some blk → blk.cb = some c →
      (c.shared_ptr_cnt = 0 →
        step s (.lock i) = some { s with shptrs := s.shptrs ++
          [some { object_ptr := none, control_block_ptr := none }] }) ∧
      (0 < c.shared_ptr_cnt →
        step s (.lock i) = some { s with
          blocks := s.blocks.set b { blk with cb := some c.add_shared },
          shptrs := s.shptrs ++
            [some { object_ptr := w.object_ptr, control_block_ptr := some b }] } ∧
        (s.blocks.set b { blk with cb := some c.add_shared })[b]?
          = some { blk with cb := some c.add_shared } ∧
        (c.add_shared).shared_ptr_cnt = c.shared_ptr_cnt + 1 ∧
        (c.add_shared).weak_ptr_cnt = c.weak_ptr_cnt + 1 ∧
        use_count { s with
            blocks := s.blocks.set b { blk with cb := some c.add_shared },
            shptrs := s.shptrs ++
              [some { object_ptr := w.object_ptr, control_block_ptr := some b }] }
          { object_ptr := w.object_ptr, control_block_ptr := some b }
          = c.shared_ptr_cnt + 1)) := by
  constructor
  · intro hcb
    simp only [step, hw, hcb]
  · intro b blk c hcb hgb hc
    constructor
    · intro hz
      simp only [step, hw, hcb, hgb, hc, if_pos hz]
    · intro hpos
      have hz : ¬(c.shared_ptr_cnt = 0) := by omega
      have haddeq : addSharedBlocks s.blocks b
          = some (s.blocks.set b { blk with cb := some c.add_shared }) := by
        simp only [addSharedBlocks, hgb, hc]
      refine ⟨?_, getElem?_set_lt _ _ _ (length_of_getElem?_some hgb), rfl, rfl, ?_⟩
      · simp only [step, hw, hcb, hgb, hc, if_neg hz, haddeq]
      · simp only [use_count]
        rw [getElem?_set_lt _ _ _ (length_of_getElem?_some hgb)]
        simp [ControlBlock.add_shared]

theorem C4_witness :
    step ⟨[], [⟨some ⟨2, 1⟩, none, 0, 0⟩], [some ⟨none, some 0⟩],
        [some ⟨some 0, none⟩], false⟩ (.lock 0)
      = some ⟨[], [⟨some ⟨3, 2⟩, none, 0, 0⟩],
          [some ⟨none, some 0⟩, some ⟨none, some 0⟩], [some ⟨some 0, none⟩], false⟩ ∧
    use_count ⟨[], [⟨some ⟨3, 2⟩, none, 0, 0⟩],
        [some ⟨none, some 0⟩, some ⟨none, some 0⟩], [some ⟨some 0, none⟩], false⟩
      ⟨none, some 0⟩ = 1 + 1 := by
  have h := ((C4_lock
      ⟨[], [⟨some ⟨2, 1⟩, none, 0, 0⟩], [some ⟨none, some 0⟩],
        [some ⟨some 0, none⟩], false⟩ 0 ⟨some 0, none⟩ rfl).2
    0 ⟨some ⟨2, 1⟩, none, 0, 0⟩ ⟨2, 1⟩ rfl rfl rfl).2 (by decide)
  exact ⟨h.1, h.2.2.2.2⟩

/-- C7 counterexample: two concrete runs refuting the claim as stated.
First run: slot 2 is an aliasing handle of an empty handle (non-null cached
pointer, null control block); after `slot2 = std::move(slot0)` the
`std::swap` in move assignment (lines 139-140) leaves the non-empty source
slot 0 holding slot 2's old stale object pointer, so the source is not
empty.  Second run: two handles share one control block with counters
`{2, 2}`; moving slot 1 into slot 0 first destroys slot 0's share, so the
block's counters drop to `{1, 1}` — the move did change the counters. -/
theorem C7_counterexample :
    (run [.newObj 5, .fromRaw (some 0), .fromNull, .aliasOf 1 (some 0), .assignMove 2 0]
        = some ⟨[5], [⟨some ⟨1, 1⟩, some 0, 0, 0⟩],
            [some ⟨some 0, none⟩, some ⟨none, none⟩, some ⟨some 0, some 0⟩], [], false⟩ ∧
      (⟨[5], [⟨some ⟨1, 1⟩, some 0, 0, 0⟩],
          [some ⟨some 0, none⟩, some ⟨none, none⟩, some ⟨some 0, some 0⟩],
          [], false⟩ : St).shptrs[0]?
        = some (some { object_ptr := some 0, control_block_ptr := none }) ∧
      ({ object_ptr := some 0, control_block_ptr := none } : shared_ptr).object_ptr
        ≠ none) ∧
    (run [.newObj 1, .fromRaw (some 0), .copy 0]
        = some ⟨[1], [⟨some ⟨2, 2⟩, some 0, 0, 0⟩],
            [some ⟨some 0, some 0⟩, some ⟨some 0, some 0⟩], [], false⟩ ∧
      run [.newObj 1, .fromRaw (some 0), .copy 0, .assignMove 0 1]
        = some ⟨[1], [⟨some ⟨1, 1⟩, some 0, 0, 0⟩],
            [some ⟨some 0, some 0⟩, some ⟨none, none⟩], [], false⟩ ∧
      (some (⟨2, 2⟩ : ControlBlock) : Option ControlBlock) ≠ some ⟨1, 1⟩) :=
  ⟨⟨rfl, rfl, by decide⟩, rfl, rfl, by decide⟩

/-- C7 (amended): move construction transfers the source's pointers to the
fresh handle, leaves the block heap (hence every counter) untouched, and
always empties the source.  Move assignment into a distinct handle gives
the destination the source's fields and leaves the source with the
destination's previous fields after the destination's destructor ran: the
source always ends with a null control block and `use_count() == 0`, and it
is fully empty whenever the destination held a control block; but when the
destination had a null control block its fields survive the destructor and
are swapped into the source, so the source's object pointer is the
destination's old cached pointer (non-null in the aliasing-of-empty case).
The source's control block's counters are unchanged provided the
destination did not itself reference that block (its destructor releases
the destination's own share). -/
theorem C7_amended (s : St) (i j : Nat) (hd hs : shared_ptr)
    (hij : i ≠ j) (hgi : s.shptrs[i]? = some (some hd))
    (hgj : s.shptrs[j]? = some (some hs)) :
    (step s (.moveCtor j) = some { s with shptrs :=
      (s.shptrs.set j (some { object_ptr := none, control_block_ptr := none }))
        ++ [some hs] }) ∧
    (∀ s2 : St, step s (.assignMove i j) = some s2 →
      s2.shptrs[i]? = some (some hs) ∧
      s2.shptrs[j]? = some (some (dtorFields hd)) ∧
      (dtorFields hd).control_block_ptr = none ∧
      use_count s2 (dtorFields hd) = 0 ∧
      (hd.control_block_ptr = none →
        s2.blocks = s.blocks ∧ (dtorFields hd).object_ptr = hd.object_ptr) ∧
      (hd.control_block_ptr.isSome = true →
        dtorFields hd = { object_ptr := none, control_block_ptr := none }) ∧
      (∀ b : Nat, hs.control_block_ptr = some b → hd.control_block_ptr ≠ some b →
        s2.blocks[b]? = s.blocks[b]?)) := by
  constructor
  · simp only [step, hgj]
  · intro s2 hstep
    simp only [step] at hstep
    rw [if_neg hij] at hstep
    simp only [hgi, hgj] at hstep
    split at hstep
    next blocks1 uf heq =>
      cases hstep
      refine ⟨?_, ?_, dtorFields_cb_none hd, ?_, ?_, ?_, ?_⟩
      · rw [List.getElem?_set_ne (Ne.symm hij)]
        exact getElem?_set_lt _ _ _ (length_of_getElem?_some hgi)
      · apply getElem?_set_lt
        rw [List.length_set]
        exact length_of_getElem?_some hgj
      · simp only [use_count, dtorFields_cb_none]
      · intro hn
        simp only [sptrDtorBlocks, hn] at heq
        cases heq
        exact ⟨rfl, by simp [dtorFields, hn]⟩
      · intro hi
        simp [dtorFields, hi]
      · intro b hb hnb
        cases hcb0 : hd.control_block_ptr with
        | none =>
          simp only [sptrDtorBlocks, hcb0] at heq
          cases heq
          rfl
        | some b0 =>
          have hbb : b0 ≠ b := by
            intro he
            exact hnb (by rw [hcb0, he])
          simp only [sptrDtorBlocks, hcb0] at heq
          split at heq
          next hgb0 => cases heq
          next blk hgb0 =>
            split at heq
            next hcblk => cases heq
            next c hcblk =>
              cases heq
              exact List.getElem?_set_ne hbb
    next heq =>
      cases hstep

theorem C7_amended_witness :
    step ⟨[1], [⟨some ⟨1, 1⟩, some 0, 0, 0⟩],
        [some ⟨some 0, some 0⟩, some ⟨none, none⟩], [], false⟩ (.moveCtor 0)
      = some ⟨[1], [⟨some ⟨1, 1⟩, some 0, 0, 0⟩],
          [some ⟨none, none⟩, some ⟨none, none⟩, some ⟨some 0, some 0⟩], [], false⟩ ∧
    (⟨[1], [⟨some ⟨1, 1⟩, some 0, 0, 0⟩],
        [some ⟨none, none⟩, some ⟨some 0, some 0⟩], [], false⟩ : St).shptrs[1]?
      = some (some ⟨some 0, some 0⟩) ∧
    (⟨[1], [⟨some ⟨1, 1⟩, some 0, 0, 0⟩],
        [some ⟨none, none⟩, some ⟨some 0, some 0⟩], [], false⟩ : St).shptrs[0]?
      = some (some (dtorFields ⟨none, none⟩)) ∧
    use_count ⟨[1], [⟨some ⟨1, 1⟩, some 0, 0, 0⟩],
        [some ⟨none, none⟩, some ⟨some 0, some 0⟩], [], false⟩
      (dtorFields ⟨none, none⟩) = 0 := by
  have h := C7_amended
    ⟨[1], [⟨some ⟨1, 1⟩, some 0, 0, 0⟩],
      [some ⟨some 0, some 0⟩, some ⟨none, none⟩], [], false⟩
    1 0 ⟨none, none⟩ ⟨some 0, some 0⟩ (by decide) rfl rfl
  have h2 := h.2
    ⟨[1], [⟨some ⟨1, 1⟩, some 0, 0, 0⟩],
      [some ⟨none, none⟩, some ⟨some 0, some 0⟩], [], false⟩ rfl
  exact ⟨h.1, h2.1, h2.2.1, h2.2.2.2.1⟩

/-- C10: `operator==` (lines 152-154) compares only the two handles'
control-block pointers: it holds iff the handles reference the same control
block (in particular two empty handles compare equal), it is insensitive to
the cached object pointers, and an aliasing-constructed handle compares
equal to its source handle even though its `get()` value may differ. -/
theorem C10_operator_eq :
    (∀ a b : shared_ptr, (opEq a b = true ↔ a.control_block_ptr = b.control_block_ptr)) ∧
    (∀ (a b : shared_ptr) (p q : Option Nat),
      opEq { object_ptr := p, control_block_ptr := a.control_block_ptr }
        { object_ptr := q, control_block_ptr := b.control_block_ptr } = opEq a b) ∧
    (∀ (s s2 : St) (i : Nat) (h : shared_ptr) (p : Option Nat),
      s.shptrs[i]? = some (some h) → step s (.aliasOf i p) = some s2 →
      s2.shptrs[s.shptrs.length]?
        = some (some { object_ptr := p, control_block_ptr := h.control_block_ptr }) ∧
      opEq { object_ptr := p, control_block_ptr := h.control_block_ptr } h = true) ∧
    opEq { object_ptr := none, control_block_ptr := none }
      { object_ptr := none, control_block_ptr := none } = true := by
  refine ⟨?_, ?_, ?_, rfl⟩
  · intro a b
    simp only [opEq, beq_iff_eq]
    exact eq_comm
  · intro a b p q
    rfl
  · intro s s2 i h p hgi hstep
    simp only [step, hgi] at hstep
    have hEq : opEq { object_ptr := p, control_block_ptr := h.control_block_ptr } h
        = true := by
      simp [opEq]
    split at hstep
    next hcb =>
      cases hstep
      exact ⟨by rw [hcb]; simp, hEq⟩
    next b hcb =>
      split at hstep
      next blocks1 haddeq =>
        cases hstep
        exact ⟨by rw [hcb]; simp, hEq⟩
      next haddeq =>
        cases hstep

theorem C10_witness :
    (⟨[7], [⟨some ⟨2, 2⟩, some 0, 0, 0⟩],
        [some ⟨some 0, some 0⟩, some ⟨none, some 0⟩], [], false⟩ : St).shptrs[1]?
      = some (some { object_ptr := none, control_block_ptr := some 0 }) ∧
    opEq { object_ptr := none, control_block_ptr := some 0 } ⟨some 0, some 0⟩ = true := by
  have h := (C10_operator_eq).2.2.1
    ⟨[7], [⟨some ⟨1, 1⟩, some 0, 0, 0⟩], [some ⟨some 0, some 0⟩], [], false⟩
    ⟨[7], [⟨some ⟨2, 2⟩, some 0, 0, 0⟩],
      [some ⟨some 0, some 0⟩, some ⟨none, some 0⟩], [], false⟩
    0 ⟨some 0, some 0⟩ none rfl rfl
  exact h
